import Mathlib

/-!
Verification development for the fluent-note-taker backend.

The Python sources under `backend/` are shallowly embedded: Python strings
become lists of characters, SQLite tables become lists of rows, the FTS5
triggers of `services/storage.py` act on an explicit term-posting index
with the external-content semantics SQLite actually gives them, and every
fallible operation returns an `Except`/`Option` value.  All definitions are
executable and use structural recursion only, so concrete runs can be
evaluated by `decide`/`rfl`.
-/

/-- Python strings are modelled as lists of characters. -/
abbrev PyStr := List Char

/-- Embed a Lean string literal as a modelled Python string. -/
def ps (s : String) : PyStr := s.toList

/-- Model of Python's `sep.join(items)`: interleave `sep` between `items`. -/
def sepJoin (sep : PyStr) : List PyStr → PyStr
  | [] => []
  | [x] => x
  | x :: y :: ys => x ++ sep ++ sepJoin sep (y :: ys)

/-- JSON escape for one character, as produced by `json.dumps`: the quote and
the backslash are escaped with a backslash.  (`json.dumps` additionally
escapes control and non-ASCII characters; those extra escapes are omitted
here — the decoder below treats any backslash-escaped character literally,
so the encoding/decoding pair is inverse for every string either way.) -/
def encChar (c : Char) : PyStr := if c = '"' ∨ c = '\\' then ['\\', c] else [c]

/-- JSON escape of a whole string body (no surrounding quotes). -/
def encStrBody : PyStr → PyStr
  | [] => []
  | c :: r => encChar c ++ encStrBody r

/-- A JSON string literal: quoted, escaped body. -/
def encStr (s : PyStr) : PyStr := '"' :: (encStrBody s ++ ['"'])

/-- Model of `json.dumps` applied to a list of strings: a bracketed list of
JSON string literals separated by a comma and a space (the default
`json.dumps` separator). -/
def jsonDumps (l : List PyStr) : PyStr :=
  '[' :: (sepJoin (ps ", ") (l.map encStr) ++ [']'])

/-- Parser state for the model of `json.loads` on a list of strings. -/
inductive JSt where
  | afterOpen : JSt
  | inStr (cur : PyStr) (acc : List PyStr) : JSt
  | esc (cur : PyStr) (acc : List PyStr) : JSt
  | afterItem (acc : List PyStr) : JSt
  | afterComma (acc : List PyStr) : JSt
  | closed (acc : List PyStr) : JSt
deriving DecidableEq

/-- Character-by-character loop of the `json.loads` model.  `cur` holds the
characters of the string literal being read, in reverse; `acc` holds the
completed items, in reverse.  A backslash escape is taken literally, which
agrees with `json.loads` on every string `jsonDumps` can produce. -/
def jloop : PyStr → JSt → Option (List PyStr)
  | [], st =>
    match st with
    | .closed acc => some acc.reverse
    | _ => none
  | c :: rest, st =>
    match st with
    | .afterOpen =>
        if c = ']' then jloop rest (.closed [])
        else if c = '"' then jloop rest (.inStr [] [])
        else if c = ' ' then jloop rest .afterOpen
        else none
    | .inStr cur acc =>
        if c = '"' then jloop rest (.afterItem (cur.reverse :: acc))
        else if c = '\\' then jloop rest (.esc cur acc)
        else jloop rest (.inStr (c :: cur) acc)
    | .esc cur acc => jloop rest (.inStr (c :: cur) acc)
    | .afterItem acc =>
        if c = ',' then jloop rest (.afterComma acc)
        else if c = ']' then jloop rest (.closed acc)
        else none
    | .afterComma acc =>
        if c = ' ' then jloop rest (.afterComma acc)
        else if c = '"' then jloop rest (.inStr [] acc)
        else none
    | .closed acc => if c = ' ' then jloop rest (.closed acc) else none

/-- Model of `json.loads` restricted to JSON arrays of strings; any other
input is a decode error (`none`), which in Python surfaces as an uncaught
`json.JSONDecodeError`. -/
def jsonLoads : PyStr → Option (List PyStr)
  | '[' :: rest => jloop rest .afterOpen
  | _ => none

theorem jloop_encStrBody (s : PyStr) : ∀ (cur : PyStr) (acc : List PyStr) (rest : PyStr),
    jloop (encStrBody s ++ '"' :: rest) (.inStr cur acc)
      = jloop rest (.afterItem ((cur.reverse ++ s) :: acc)) := by
  induction s with
  | nil => intro cur acc rest; simp [encStrBody, jloop]
  | cons c cs ih =>
      intro cur acc rest
      by_cases h : c = '"' ∨ c = '\\'
      · have hbody : encStrBody (c :: cs) = '\\' :: c :: encStrBody cs := by
          simp [encStrBody, encChar, h]
        rw [hbody]
        have h1 : jloop (('\\' :: c :: encStrBody cs) ++ '"' :: rest) (.inStr cur acc)
            = jloop ((c :: encStrBody cs) ++ '"' :: rest) (.esc cur acc) := by
          simp [jloop]
        have h2 : jloop ((c :: encStrBody cs) ++ '"' :: rest) (.esc cur acc)
            = jloop (encStrBody cs ++ '"' :: rest) (.inStr (c :: cur) acc) := by
          simp [jloop]
        rw [h1, h2, ih]
        simp
      · push_neg at h
        have hbody : encStrBody (c :: cs) = c :: encStrBody cs := by
          simp [encStrBody, encChar, h.1, h.2]
        rw [hbody]
        have h1 : jloop ((c :: encStrBody cs) ++ '"' :: rest) (.inStr cur acc)
            = jloop (encStrBody cs ++ '"' :: rest) (.inStr (c :: cur) acc) := by
          simp [jloop, h.1, h.2]
        rw [h1, ih]
        simp

/-- The tail of the encoded item list: everything after the first item. -/
def jsonTail (l : List PyStr) : PyStr := (l.map (fun x => ps ", " ++ encStr x)).flatten

theorem sepJoin_map_encStr (x : PyStr) (xs : List PyStr) :
    sepJoin (ps ", ") (encStr x :: xs.map encStr) = encStr x ++ jsonTail xs := by
  induction xs generalizing x with
  | nil => simp [sepJoin, jsonTail]
  | cons y ys ih =>
      simp only [List.map_cons, sepJoin, jsonTail, List.flatten_cons] at *
      rw [ih y]
      simp [jsonTail]

theorem jloop_jsonTail (xs : List PyStr) : ∀ acc : List PyStr,
    jloop (jsonTail xs ++ [']']) (.afterItem acc) = some (acc.reverse ++ xs) := by
  induction xs with
  | nil => intro acc; simp [jsonTail, jloop]
  | cons x xsTail ih =>
      intro acc
      have hx : jsonTail (x :: xsTail) = ',' :: ' ' :: encStr x ++ jsonTail xsTail := by
        simp [jsonTail, ps, encStr]
      rw [hx]
      have h1 : jloop ((',' :: ' ' :: encStr x ++ jsonTail xsTail) ++ [']']) (.afterItem acc)
          = jloop ((' ' :: encStr x ++ jsonTail xsTail) ++ [']']) (.afterComma acc) := by
        simp [jloop]
      have h2 : jloop ((' ' :: encStr x ++ jsonTail xsTail) ++ [']']) (.afterComma acc)
          = jloop ((encStr x ++ jsonTail xsTail) ++ [']']) (.afterComma acc) := by
        simp [jloop]
      have h3 : jloop ((encStr x ++ jsonTail xsTail) ++ [']']) (.afterComma acc)
          = jloop ((encStrBody x ++ '"' :: (jsonTail xsTail ++ [']']))) (.inStr [] acc) := by
        simp [encStr, jloop]
      rw [h1, h2, h3, jloop_encStrBody]
      simp only [List.reverse_nil, List.nil_append]
      rw [ih (x :: acc)]
      simp

/-- `json.loads` is a left inverse of `json.dumps` on lists of strings: the
list-valued fields stored by `storage.py` always decode back to the exact
sequences that were stored. -/
theorem jsonLoads_jsonDumps (l : List PyStr) : jsonLoads (jsonDumps l) = some l := by
  cases l with
  | nil => rfl
  | cons x xs =>
      have h0 : jsonDumps (x :: xs) = '[' :: (encStr x ++ jsonTail xs ++ [']']) := by
        simp [jsonDumps, sepJoin_map_encStr]
      rw [h0]
      have h1 : jsonLoads ('[' :: (encStr x ++ jsonTail xs ++ [']']))
          = jloop (encStr x ++ jsonTail xs ++ [']']) .afterOpen := rfl
      rw [h1]
      have h2 : jloop (encStr x ++ jsonTail xs ++ [']']) .afterOpen
          = jloop (encStrBody x ++ '"' :: (jsonTail xs ++ [']'])) (.inStr [] []) := by
        simp [encStr, jloop]
      rw [h2, jloop_encStrBody]
      simp only [List.reverse_nil, List.nil_append]
      rw [jloop_jsonTail]
      simp

/-- Python whitespace (the ASCII part of `str.strip` and of the regex class
used in `summarizer.py`). -/
def isPyWs (c : Char) : Bool :=
  c = ' ' ∨ c = '\t' ∨ c = '\n' ∨ c = '\r' ∨ c = '\x0b' ∨ c = '\x0c'

/-- Drop leading Python whitespace. -/
def dropWs (s : PyStr) : PyStr := s.dropWhile isPyWs

/-- Drop trailing Python whitespace. -/
def stripRight : PyStr → PyStr
  | [] => []
  | c :: r =>
      let r' := stripRight r
      if r' = [] ∧ isPyWs c then [] else c :: r'

/-- Model of Python's `str.strip()` (both ends). -/
def pyStrip (s : PyStr) : PyStr := dropWs (stripRight s)

/-- Prepend a character to the first line of a line list. -/
def consHead (c : Char) : List PyStr → List PyStr
  | [] => [[c]]
  | l :: ls => (c :: l) :: ls

/-- Model of Python's `text.split(chr(10))`: split on newline characters,
keeping empty pieces, never returning an empty list. -/
def splitLines : PyStr → List PyStr
  | [] => [[]]
  | c :: r => if c = '\n' then [] :: splitLines r else consHead c (splitLines r)

/-- A character counts into an FTS token when it is ASCII alphanumeric
(approximation of the FTS5 unicode61 tokenizer). -/
def isTokChar (c : Char) : Bool := c.isAlpha ∨ c.isDigit

/-- Tokenize a transcript the way the FTS5 index does, modulo case folding:
maximal runs of alphanumeric characters, lower-cased. -/
def tokenize : PyStr → List PyStr
  | [] => []
  | c :: r =>
      if isTokChar c then
        match tokenize r with
        | [] => [[c.toLower]]
        | t :: ts =>
          match r with
          | [] => [[c.toLower]]
          | d :: _ => if isTokChar d then (c.toLower :: t) :: ts else [c.toLower] :: t :: ts
      else tokenize r

/-- One row of the `meetings` table (`storage.py` / `init_db`).  There is no
status column; `action_items` and `decisions` hold JSON-encoded strings.
The implicit SQLite rowid is made explicit because the FTS triggers key on
it. -/
structure Row where
  rowid : Nat
  job_id : PyStr
  filename : PyStr
  transcript : PyStr
  summary : PyStr
  action_items : PyStr
  decisions : PyStr
  timestamp : PyStr
deriving DecidableEq

/-- One term posting of the `meetings_fts` index.  `meetings_fts` is an
external-content FTS5 table (`content='meetings'`): what it durably stores
is the inverted index — which terms are posted at which rowid — while
column values are read from `meetings` on demand.  `MATCH` consults these
postings.  (`job_id` is UNINDEXED and contributes none.) -/
structure FtsPost where
  rowid : Nat
  term : PyStr
deriving DecidableEq

/-- The database state: the `meetings` table and the term postings of the
`meetings_fts` index. -/
structure DB where
  meetings : List Row
  fts : List FtsPost
deriving DecidableEq

/-- The freshly initialised database (`init_db` creates empty tables). -/
def emptyDB : DB := { meetings := [], fts := [] }

/-- SQLite rowid allocation for an ordinary table: one more than the largest
rowid currently in the table (1 when it is empty).  After the
largest-rowid row is deleted, its rowid is reused by the next insert. -/
def nextRowid (db : DB) : Nat :=
  db.meetings.foldr (fun r acc => max r.rowid acc) 0 + 1

/-- The postings the index gains when the value `transcript` is indexed at
`rowid`. -/
def postsOf (rowid : Nat) (transcript : PyStr) : List FtsPost :=
  (tokenize transcript).map (fun t => { rowid := rowid, term := t })

/-- The payload handed to `save_processed_data`: in every caller
(`process_audio_task` both on its normal path and in its error handler) the
dictionary carries all four keys, `action_items` and `decisions` being
lists of strings. -/
structure ProcessedData where
  transcript : PyStr
  summary : PyStr
  action_items : List PyStr
  decisions : List PyStr
deriving DecidableEq

/-- Model of `storage.save_processed_data`.  `dbErr` injects an
`sqlite3.Error` during the write: the handler rolls the transaction back
and the function returns normally (`None`), exactly like on success.
Otherwise: `INSERT ... ON CONFLICT(job_id) DO UPDATE`.  The FTS triggers
act on the external-content index as SQLite actually executes them: the
`AFTER INSERT` trigger indexes the new transcript at the new rowid; the
`AFTER UPDATE` trigger (`UPDATE meetings_fts SET transcript =
new.transcript WHERE rowid = old.rowid`) must first de-index the row's
previous value, but with `content='meetings'` it reads that value from the
already-updated content row — so it removes postings for the NEW
transcript's terms — and then indexes the new transcript.  The OLD
transcript's postings therefore survive the update (verified against
SQLite: a search for an old term still returns the record). -/
def save_processed_data (dbErr : Bool) (job_id filename : PyStr)
    (processed_data : ProcessedData) (ts : PyStr) (db : DB) : DB × Unit :=
  if dbErr then (db, ())
  else
    match db.meetings.find? (fun r => decide (r.job_id = job_id)) with
    | none =>
        let r : Row :=
          { rowid := nextRowid db
            job_id := job_id
            filename := filename
            transcript := processed_data.transcript
            summary := processed_data.summary
            action_items := jsonDumps processed_data.action_items
            decisions := jsonDumps processed_data.decisions
            timestamp := ts }
        ({ meetings := db.meetings ++ [r]
           fts := db.fts ++ postsOf r.rowid r.transcript }, ())
    | some r0 =>
        ({ meetings := db.meetings.map (fun r =>
             if r.job_id = job_id then
               { r with filename := filename
                        transcript := processed_data.transcript
                        summary := processed_data.summary
                        action_items := jsonDumps processed_data.action_items
                        decisions := jsonDumps processed_data.decisions
                        timestamp := ts }
             else r)
           fts := (db.fts.filter (fun p =>
               decide (¬(p.rowid = r0.rowid ∧ p.term ∈ tokenize processed_data.transcript))))
             ++ postsOf r0.rowid processed_data.transcript }, ())

/-- A decoded meeting record as the read operations of `storage.py` return
it: `dict(row)` with the two JSON fields decoded back to lists. -/
structure Meeting where
  job_id : PyStr
  filename : PyStr
  transcript : PyStr
  summary : PyStr
  action_items : List PyStr
  decisions : List PyStr
  timestamp : PyStr
deriving DecidableEq

/-- Decode one fetched row; `none` models the uncaught `json.JSONDecodeError`
that `json.loads` would raise on a malformed stored value (it is not an
`sqlite3.Error`, so the handlers in `storage.py` do not catch it). -/
def decodeRow (r : Row) : Option Meeting :=
  match jsonLoads r.action_items, jsonLoads r.decisions with
  | some ai, some ds =>
      some { job_id := r.job_id, filename := r.filename, transcript := r.transcript
             summary := r.summary, action_items := ai, decisions := ds
             timestamp := r.timestamp }
  | _, _ => none

/-- Decode a list of fetched rows, failing like Python on the first row whose
stored JSON does not parse. -/
def decodeRows : List Row → Except PyStr (List Meeting)
  | [] => .ok []
  | r :: rest =>
      match decodeRow r with
      | some m => (decodeRows rest).map (fun ms => m :: ms)
      | none => .error (ps "json.decoder.JSONDecodeError")

/-- Model of `storage.get_meeting_data`.  `dbErr` injects an `sqlite3.Error`
during the query: the handler returns `None`, the same value a missing
`job_id` produces. -/
def get_meeting_data (dbErr : Bool) (job_id : PyStr) (db : DB) :
    Except PyStr (Option Meeting) :=
  if dbErr then .ok none
  else
    match db.meetings.find? (fun r => decide (r.job_id = job_id)) with
    | none => .ok none
    | some r =>
        match decodeRow r with
        | some m => .ok (some m)
        | none => .error (ps "json.decoder.JSONDecodeError")

/-- Model of `storage.search_transcripts`: `MATCH` consults the term
postings with bag-of-terms (AND) semantics — a rowid matches when every
token of the query is posted at it — the hits are joined back to
`meetings` on rowid (a posting whose rowid has no `meetings` row drops out
of the inner join) and each hit is decoded.  An empty or malformed query
raises `sqlite3.OperationalError`, caught like every `sqlite3.Error` and
turned into the empty list, as is an injected `dbErr`.  (The
`ORDER BY rank` relevance permutation is not modelled; the claims below
only concern membership.) -/
def search_transcripts (dbErr : Bool) (query : PyStr) (db : DB) :
    Except PyStr (List Meeting) :=
  if dbErr then .ok []
  else
    let qs := tokenize query
    if qs.isEmpty then .ok []
    else
      let rowids := (db.fts.map FtsPost.rowid).dedup
      let matched := rowids.filter (fun rid =>
        qs.all (fun t => decide (({ rowid := rid, term := t } : FtsPost) ∈ db.fts)))
      let joined := matched.filterMap (fun rid =>
        db.meetings.find? (fun r => decide (r.rowid = rid)))
      decodeRows joined

/-- Model of `storage.get_all_meeting_data`.  `dbErr` injects an
`sqlite3.Error`, which the handler turns into the empty list.  (The
`ORDER BY timestamp DESC` permutation is not modelled; the claims below are
order-independent.) -/
def get_all_meeting_data (dbErr : Bool) (db : DB) : Except PyStr (List Meeting) :=
  if dbErr then .ok []
  else decodeRows db.meetings

/-- Administrative record deletion: `DELETE FROM meetings WHERE job_id = ?`
together with the `meetings_ad` trigger.  The trigger's `DELETE FROM
meetings_fts WHERE rowid = old.rowid` must de-index the deleted value, but
with `content='meetings'` it reads that value from the content row, which
the outer DELETE has already removed — so no postings are removed at all:
the deleted transcript's postings stay in the index (verified against
SQLite; they resurface attributed to a different record once the rowid is
reused). -/
def delete_meeting (job_id : PyStr) (db : DB) : DB :=
  { meetings := db.meetings.filter (fun r => decide (¬r.job_id = job_id))
    fts := db.fts }

/-- The database states reachable through the program's own write
operations, starting from the initialised database. -/
inductive Reach : DB → Prop where
  | init : Reach emptyDB
  | save (db : DB) (dbErr : Bool) (job_id filename : PyStr) (pd : ProcessedData)
      (ts : PyStr) : Reach db → Reach (save_processed_data dbErr job_id filename pd ts db).1
  | del (db : DB) (job_id : PyStr) : Reach db → Reach (delete_meeting job_id db)

theorem find?_map_of_pres {α : Type} (l : List α) (p : α → Bool) (f : α → α)
    (hpres : ∀ r, p (f r) = p r) : (l.map f).find? p = (l.find? p).map f := by
  induction l with
  | nil => rfl
  | cons a l ih =>
      by_cases hpa : p a = true
      · simp [List.find?_cons, hpres, hpa]
      · simp only [Bool.not_eq_true] at hpa
        simp [List.find?_cons, hpres, hpa, ih]

/-- The row update applied by the `ON CONFLICT ... DO UPDATE` branch of
`save_processed_data`. -/
def updRow (job_id filename : PyStr) (pd : ProcessedData) (ts : PyStr) (r : Row) : Row :=
  if r.job_id = job_id then
    { r with filename := filename
             transcript := pd.transcript
             summary := pd.summary
             action_items := jsonDumps pd.action_items
             decisions := jsonDumps pd.decisions
             timestamp := ts }
  else r

theorem save_meetings_eq (job_id filename : PyStr) (pd : ProcessedData) (ts : PyStr)
    (db : DB) :
    (save_processed_data false job_id filename pd ts db).1.meetings
      = match db.meetings.find? (fun r => decide (r.job_id = job_id)) with
        | none => db.meetings ++
            [{ rowid := nextRowid db, job_id := job_id, filename := filename
               transcript := pd.transcript, summary := pd.summary
               action_items := jsonDumps pd.action_items
               decisions := jsonDumps pd.decisions, timestamp := ts }]
        | some _ => db.meetings.map (updRow job_id filename pd ts) := by
  cases hfind : db.meetings.find? (fun r => decide (r.job_id = job_id)) with
  | none => simp [save_processed_data, hfind]
  | some r0 => simp [save_processed_data, hfind, updRow]

theorem updRow_pres (job_id filename : PyStr) (pd : ProcessedData) (ts : PyStr) (r : Row) :
    (decide ((updRow job_id filename pd ts r).job_id = job_id))
      = (decide (r.job_id = job_id)) := by
  by_cases h : r.job_id = job_id <;> simp [updRow, h]

/-- After a successful `save_processed_data`, the row for `job_id` is found,
and carries exactly the saved payload (JSON-encoded where applicable). -/
theorem find?_after_save (job_id filename : PyStr) (pd : ProcessedData) (ts : PyStr)
    (db : DB) :
    ∃ r : Row,
      (save_processed_data false job_id filename pd ts db).1.meetings.find?
          (fun r => decide (r.job_id = job_id)) = some r ∧
      r.job_id = job_id ∧ r.filename = filename ∧ r.transcript = pd.transcript ∧
      r.summary = pd.summary ∧ r.action_items = jsonDumps pd.action_items ∧
      r.decisions = jsonDumps pd.decisions ∧ r.timestamp = ts := by
  rw [save_meetings_eq]
  cases hfind : db.meetings.find? (fun r => decide (r.job_id = job_id)) with
  | none =>
      refine ⟨{ rowid := nextRowid db, job_id := job_id, filename := filename
                transcript := pd.transcript, summary := pd.summary
                action_items := jsonDumps pd.action_items
                decisions := jsonDumps pd.decisions, timestamp := ts },
              ?_, rfl, rfl, rfl, rfl, rfl, rfl, rfl⟩
      rw [List.find?_append, hfind]
      simp [List.find?_cons]
  | some r0 =>
      have hp := List.find?_some hfind
      have hr0 : r0.job_id = job_id := of_decide_eq_true hp
      refine ⟨updRow job_id filename pd ts r0, ?_, ?_, ?_, ?_, ?_, ?_, ?_, ?_⟩
      · rw [find?_map_of_pres _ _ _ (updRow_pres job_id filename pd ts), hfind]
        rfl
      all_goals simp [updRow, hr0]

/-- Reading a record immediately after a successful save returns exactly the
saved fields, with the list-valued fields decoded back. -/
theorem get_after_save (job_id filename : PyStr) (pd : ProcessedData) (ts : PyStr)
    (db : DB) :
    ∃ m : Meeting,
      get_meeting_data false job_id (save_processed_data false job_id filename pd ts db).1
        = .ok (some m) ∧
      m.job_id = job_id ∧ m.filename = filename ∧ m.transcript = pd.transcript ∧
      m.summary = pd.summary ∧ m.action_items = pd.action_items ∧
      m.decisions = pd.decisions ∧ m.timestamp = ts := by
  obtain ⟨r, hfind, h1, h2, h3, h4, h5, h6, h7⟩ := find?_after_save job_id filename pd ts db
  refine ⟨{ job_id := r.job_id, filename := r.filename, transcript := r.transcript
            summary := r.summary, action_items := pd.action_items
            decisions := pd.decisions, timestamp := r.timestamp }, ?_, ?_, ?_, ?_, ?_, rfl, rfl, ?_⟩
  · simp only [get_meeting_data, Bool.false_eq_true, if_false, hfind, decodeRow, h5, h6,
      jsonLoads_jsonDumps]
  all_goals simp [h1, h2, h3, h4, h7]

/-- A bullet marker recognised by `BulletPointOutputParser` in
`summarizer.py` (regex class: dash, asterisk, plus, bullet dot). -/
def isBullet (c : Char) : Bool := c = '-' ∨ c = '*' ∨ c = '+' ∨ c = '•'

/-- Does a line match the regex `^(ws)*[-*+•]` (optional leading whitespace,
then a bullet marker)? -/
def bulletMatch (l : PyStr) : Bool :=
  match dropWs l with
  | [] => false
  | c :: _ => isBullet c

/-- Model of `re.sub` with the pattern `^(ws)*[-*+•](ws)*` and empty
replacement: drop leading whitespace, one bullet marker and the whitespace
after it; a line with no match is returned unchanged. -/
def subBullet (l : PyStr) : PyStr :=
  match dropWs l with
  | [] => l
  | c :: rest => if isBullet c then dropWs rest else l

/-- Model of `BulletPointOutputParser.parse`: strip the text, split it into
lines, keep the bullet-marked lines with the marker removed and each item
stripped, and drop items that became empty. -/
def parse (text : PyStr) : List PyStr :=
  let lines := splitLines (pyStrip text)
  let items := (lines.filter bulletMatch).map (fun line => pyStrip (subBullet line))
  items.filter (fun i => decide (¬i = []))

/-- The claim's own description of the parser, stated over the raw input
lines: exactly the lines that begin (after optional whitespace) with a
bullet marker, each with the marker and surrounding whitespace stripped,
each non-empty, in their original order. -/
def claimParse (text : PyStr) : List PyStr :=
  (((splitLines text).filter bulletMatch).map (fun line => pyStrip (subBullet line))).filter
    (fun i => decide (¬i = []))

/-- The dictionary returned by the raw Whisper `transcribe` call (its keys
are read with `.get`, so each is optional). -/
structure WhisperOut where
  text : Option PyStr
  language : Option PyStr
  segments : List PyStr
deriving DecidableEq

instance exceptDecEq {ε α : Type} [DecidableEq ε] [DecidableEq α] :
    DecidableEq (Except ε α)
  | .error e1, .error e2 =>
      if h : e1 = e2 then .isTrue (by rw [h]) else .isFalse (fun hh => by cases hh; exact h rfl)
  | .error _, .ok _ => .isFalse (fun hh => by cases hh)
  | .ok _, .error _ => .isFalse (fun hh => by cases hh)
  | .ok a1, .ok a2 =>
      if h : a1 = a2 then .isTrue (by rw [h]) else .isFalse (fun hh => by cases hh; exact h rfl)

/-- Environment of `asr.transcribe_audio`: whether the globally loaded model
is available, and what the underlying `transcribe` call does (returns a
dictionary, or raises). -/
structure AsrEnv where
  modelLoaded : Bool
  transcribeResult : Except PyStr WhisperOut
deriving DecidableEq

/-- The dictionary `asr.transcribe_audio` returns. -/
structure AsrResult where
  transcript : PyStr
  language : Option PyStr
  segments : List PyStr
  diarization : List PyStr
  timestamps : List PyStr
deriving DecidableEq

/-- Model of `asr.transcribe_audio`.  It is a total function: the missing
model and the raising `transcribe` call both produce an error-describing
dictionary instead of propagating an exception. -/
def transcribe_audio (env : AsrEnv) (language : Option PyStr) : AsrResult :=
  if ¬env.modelLoaded then
    { transcript := ps "Error: ASR model not available.", language := none
      segments := [], diarization := [], timestamps := [] }
  else
    match env.transcribeResult with
    | .error e =>
        { transcript := ps "Error during transcription: " ++ e, language := none
          segments := [], diarization := [], timestamps := [] }
    | .ok r =>
        { transcript := r.text.getD (ps "Transcription result empty.")
          language := match r.language with | some l => some l | none => language
          segments := r.segments, diarization := [], timestamps := [] }

/-- Environment of `summarizer.process_transcript`: whether the LLM and its
chains are loaded, and the raw outcome of each of the three chain
invocations (a string, or an exception).  The two list-producing chains end
in `BulletPointOutputParser`, so their successful value is `parse` of the
raw model output. -/
structure LlmEnv where
  loaded : Bool
  summaryRes : Except PyStr PyStr
  actionRaw : Except PyStr PyStr
  decisionsRaw : Except PyStr PyStr
deriving DecidableEq

/-- The dictionary `summarizer.process_transcript` returns. -/
structure ExtractOut where
  summary : PyStr
  action_items : List PyStr
  decisions : List PyStr
deriving DecidableEq

/-- Model of `summarizer.process_transcript`: total; a failing sub-extraction
is replaced by a diagnostic value (error string for the summary, one-element
error list for the list fields). -/
def process_transcript (env : LlmEnv) (_transcript : PyStr) : ExtractOut :=
  if ¬env.loaded then
    { summary := ps "LLM processing disabled.", action_items := [], decisions := [] }
  else
    { summary :=
        match env.summaryRes with
        | .error e => ps "Error: " ++ e
        | .ok s => pyStrip s
      action_items :=
        match env.actionRaw with
        | .error e => [ps "Error: " ++ e]
        | .ok raw => parse raw
      decisions :=
        match env.decisionsRaw with
        | .error e => [ps "Error: " ++ e]
        | .ok raw => parse raw }

/-- The payload written by the `except` handler of `process_audio_task`. -/
def error_data (e : PyStr) : ProcessedData :=
  { transcript := ps "Processing Error: " ++ e, summary := ps "Error"
    action_items := [], decisions := [] }

/-- Environment of one background-task run.  `runtimeExc` injects an
exception raised inside the task's `try` block by machinery outside the
embedded steps (e.g. cancellation); the embedded steps themselves
(`transcribe_audio`, `process_transcript`, `save_processed_data`) are total
functions and never raise. -/
structure PipeEnv where
  asr : AsrEnv
  llm : LlmEnv
  runtimeExc : Option PyStr
  saveErr : Bool
deriving DecidableEq

/-- Model of `upload.process_audio_task`: transcribe, extract, save; on an
injected exception, save the `error_data` payload instead.  The returned
value is the database after the task. -/
def process_audio_task (env : PipeEnv) (db : DB) (job_id filename ts : PyStr) : DB :=
  match env.runtimeExc with
  | some e => (save_processed_data env.saveErr job_id filename (error_data e) ts db).1
  | none =>
      let asr_result := transcribe_audio env.asr none
      let transcript := asr_result.transcript
      let processed := process_transcript env.llm transcript
      let pd : ProcessedData :=
        { transcript := transcript, summary := processed.summary
          action_items := processed.action_items, decisions := processed.decisions }
      (save_processed_data env.saveErr job_id filename pd ts db).1

/-- The upload allow-list of `routers/upload.py`. -/
def ALLOWED_EXTENSIONS : List PyStr := [ps ".wav", ps ".mp3", ps ".m4a"]

/-- Model of `os.path.splitext(filename)[1]` for plain file names: the suffix
from the last dot on, empty when there is no dot. -/
def splitextExt (filename : PyStr) : PyStr :=
  let revTail := filename.reverse.takeWhile (fun c => decide (¬c = '.'))
  if revTail.length = filename.length then [] else '.' :: revTail.reverse

/-- Model of the `upload_audio` endpoint: validate the extension, pick the
fresh UUID `job_id` (passed in as an oracle), save the file (`ioErr`
injects an `IOError`, answered with HTTP 500), schedule the background task
and answer HTTP 202 with the job id and the UUID filename.  The endpoint
itself never writes to the database, which is returned unchanged in every
branch. -/
def upload_audio (ioErr : Bool) (filename fresh_job_id : PyStr) (db : DB) :
    Except PyStr (PyStr × PyStr) × DB :=
  let file_ext := (splitextExt filename).map Char.toLower
  if file_ext ∈ ALLOWED_EXTENSIONS then
    if ioErr then (.error (ps "500 Could not save the file"), db)
    else (.ok (fresh_job_id, fresh_job_id ++ file_ext), db)
  else (.error (ps "400 Invalid file type"), db)

/-- Twenty equals signs, the section-banner bar of `get_txt_export`. -/
def eqBar : PyStr := ps "===================="

/-- Model of the body of `transcript.get_txt_export` for a fetched record:
build the line list and join it with newlines. -/
def get_txt_export (job_id : PyStr) (m : Meeting) : PyStr :=
  let output_lines : List PyStr :=
    [ps "Meeting Report - Job ID: " ++ job_id,
     ps "Original File: " ++ m.filename,
     ps "Timestamp: " ++ m.timestamp,
     ps "\n" ++ eqBar ++ ps " SUMMARY " ++ eqBar ++ ps "\n",
     m.summary]
    ++ (if m.action_items = [] then []
        else (ps "\n" ++ eqBar ++ ps " ACTION ITEMS " ++ eqBar ++ ps "\n")
          :: m.action_items.map (fun item => ps "- " ++ item))
    ++ (if m.decisions = [] then []
        else (ps "\n" ++ eqBar ++ ps " DECISIONS " ++ eqBar ++ ps "\n")
          :: m.decisions.map (fun item => ps "- " ++ item))
    ++ [ps "\n" ++ eqBar ++ ps " TRANSCRIPT " ++ eqBar ++ ps "\n",
        m.transcript]
  sepJoin (ps "\n") output_lines

/-- The `/txt` endpoint including its not-found handling. -/
def txt_export_endpoint (dbErr : Bool) (job_id : PyStr) (db : DB) : Except PyStr PyStr :=
  match get_meeting_data dbErr job_id db with
  | .error e => .error e
  | .ok none => .error (ps "404 Meeting data not found")
  | .ok (some m) => .ok (get_txt_export job_id m)

/-- A section banner as the claim describes it. -/
def bannerLine (title : PyStr) : PyStr := eqBar ++ ps " " ++ title ++ ps " " ++ eqBar

/-- A bulleted block as the claim describes it. -/
def bulletedBlock (items : List PyStr) : PyStr :=
  sepJoin (ps "\n") (items.map (fun item => ps "- " ++ item))

/-- The claim's own description of the flattened text export: a fixed-order
concatenation of header, summary section, conditional action-items and
decisions sections, and transcript section, separated by blank lines. -/
def txtExportClaim (job_id : PyStr) (m : Meeting) : PyStr :=
  ps "Meeting Report - Job ID: " ++ job_id ++ ps "\n"
    ++ ps "Original File: " ++ m.filename ++ ps "\n"
    ++ ps "Timestamp: " ++ m.timestamp
    ++ ps "\n\n" ++ bannerLine (ps "SUMMARY") ++ ps "\n\n" ++ m.summary
    ++ (if m.action_items = [] then []
        else ps "\n\n" ++ bannerLine (ps "ACTION ITEMS") ++ ps "\n\n"
          ++ bulletedBlock m.action_items)
    ++ (if m.decisions = [] then []
        else ps "\n\n" ++ bannerLine (ps "DECISIONS") ++ ps "\n\n"
          ++ bulletedBlock m.decisions)
    ++ ps "\n\n" ++ bannerLine (ps "TRANSCRIPT") ++ ps "\n\n" ++ m.transcript

/-- C4: for every valid id and every field payload (transcript, summary,
action_items list, decisions list), reading the record with get immediately
after upsert returns fields matching the payload exactly, including the
list-valued fields decoded back to the same sequences that were stored. -/
theorem C4_upsert_get_roundtrip (job_id filename : PyStr) (pd : ProcessedData)
    (ts : PyStr) (db : DB) :
    ∃ m : Meeting,
      get_meeting_data false job_id
          (save_processed_data false job_id filename pd ts db).1 = .ok (some m) ∧
      m.transcript = pd.transcript ∧ m.summary = pd.summary ∧
      m.action_items = pd.action_items ∧ m.decisions = pd.decisions := by
  obtain ⟨m, h, _, _, h3, h4, h5, h6, _⟩ := get_after_save job_id filename pd ts db
  exact ⟨m, h, h3, h4, h5, h6⟩

/-- C2 counterexample: the transcription provider raises "boom" for job K,
yet the final record's transcript is "Error during transcription: boom" —
not a string of the form "Processing Error: ..." — and its summary is not
empty (here the extraction stage answers "LLM processing disabled."). -/
theorem C2_counterexample :
    ∃ m : Meeting,
      get_meeting_data false (ps "K")
          (process_audio_task
            { asr := { modelLoaded := true, transcribeResult := .error (ps "boom") }
              llm := { loaded := false, summaryRes := .ok [], actionRaw := .ok []
                       decisionsRaw := .ok [] }
              runtimeExc := none, saveErr := false }
            emptyDB (ps "K") (ps "K.wav") (ps "t0")) = .ok (some m) ∧
      m.transcript = ps "Error during transcription: boom" ∧
      ¬m.transcript.take 18 = ps "Processing Error: " ∧
      ¬m.summary = [] := by
  refine ⟨{ job_id := ps "K", filename := ps "K.wav"
            transcript := ps "Error during transcription: boom"
            summary := ps "LLM processing disabled."
            action_items := [], decisions := [], timestamp := ps "t0" }, ?_, ?_, ?_, ?_⟩
  · decide
  · decide
  · decide
  · decide

/-- C2 (amended): when the underlying transcription call raises,
transcribe_audio catches it and the pipeline completes normally — the final
record exists (the job is not stuck), its transcript is the diagnostic
string "Error during transcription: <details>", and its summary,
action_items and decisions are whatever the extraction stage produced from
that diagnostic transcript; no exception escapes (the task is a total
function).  The "Processing Error: <details>" transcript together with
summary "Error" arises only in the task's outer exception handler, which a
transcription failure alone cannot trigger. -/
theorem C2_amended_transcription_error (e : PyStr) (llm : LlmEnv) (db : DB)
    (job_id filename ts : PyStr) :
    ∃ m : Meeting,
      get_meeting_data false job_id
          (process_audio_task
            { asr := { modelLoaded := true, transcribeResult := .error e }
              llm := llm, runtimeExc := none, saveErr := false }
            db job_id filename ts) = .ok (some m) ∧
      m.transcript = ps "Error during transcription: " ++ e ∧
      m.summary = (process_transcript llm (ps "Error during transcription: " ++ e)).summary ∧
      m.action_items
        = (process_transcript llm (ps "Error during transcription: " ++ e)).action_items ∧
      m.decisions
        = (process_transcript llm (ps "Error during transcription: " ++ e)).decisions := by
  obtain ⟨m, hget, _, _, h3, h4, h5, h6, _⟩ := get_after_save job_id filename
    { transcript := ps "Error during transcription: " ++ e
      summary := (process_transcript llm (ps "Error during transcription: " ++ e)).summary
      action_items
        := (process_transcript llm (ps "Error during transcription: " ++ e)).action_items
      decisions
        := (process_transcript llm (ps "Error during transcription: " ++ e)).decisions }
    ts db
  refine ⟨m, ?_, h3, h4, h5, h6⟩
  have hrun : process_audio_task
      { asr := { modelLoaded := true, transcribeResult := .error e }
        llm := llm, runtimeExc := none, saveErr := false } db job_id filename ts
      = (save_processed_data false job_id filename
          { transcript := ps "Error during transcription: " ++ e
            summary := (process_transcript llm (ps "Error during transcription: " ++ e)).summary
            action_items
              := (process_transcript llm (ps "Error during transcription: " ++ e)).action_items
            decisions
              := (process_transcript llm (ps "Error during transcription: " ++ e)).decisions }
          ts db).1 := by
    simp [process_audio_task, transcribe_audio]
  rw [hrun]
  exact hget

/-- The payload the normal (no-exception) path of `process_audio_task`
assembles and saves. -/
def normalPayload (env : PipeEnv) : ProcessedData :=
  let transcript := (transcribe_audio env.asr none).transcript
  let processed := process_transcript env.llm transcript
  { transcript := transcript, summary := processed.summary
    action_items := processed.action_items, decisions := processed.decisions }

/-- C9: transcribe_audio is total over its error cases: with the model
missing it returns the "Error: ASR model not available." dictionary, with a
raising transcription call it returns the "Error during transcription:"
dictionary, both with empty segments, diarization and timestamps; and for
every transcription outcome the task's normal path runs to its single save
— the exception branch of process_audio_task is unreachable via a
transcription failure alone. -/
theorem C9_transcribe_audio_total :
    (∀ (tr : Except PyStr WhisperOut) (language : Option PyStr),
        transcribe_audio { modelLoaded := false, transcribeResult := tr } language
          = { transcript := ps "Error: ASR model not available.", language := none
              segments := [], diarization := [], timestamps := [] }) ∧
    (∀ (e : PyStr) (language : Option PyStr),
        transcribe_audio { modelLoaded := true, transcribeResult := .error e } language
          = { transcript := ps "Error during transcription: " ++ e, language := none
              segments := [], diarization := [], timestamps := [] }) ∧
    (∀ (asr : AsrEnv) (llm : LlmEnv) (sErr : Bool) (db : DB) (job_id filename ts : PyStr),
        process_audio_task { asr := asr, llm := llm, runtimeExc := none, saveErr := sErr }
            db job_id filename ts
          = (save_processed_data sErr job_id filename
              (normalPayload { asr := asr, llm := llm, runtimeExc := none, saveErr := sErr })
              ts db).1) := by
  refine ⟨?_, ?_, ?_⟩
  · intro tr language; simp [transcribe_audio]
  · intro e language; simp [transcribe_audio]
  · intro asr llm sErr db job_id filename ts
    simp [process_audio_task, normalPayload]

/-- C1 counterexample: an accepted upload (valid extension, HTTP 202 with the
fresh job id) leaves the database unchanged — in particular no record with
any status exists for the new job id at ingress, contradicting the claimed
insertion of a processing record. -/
theorem C1_counterexample :
    upload_audio false (ps "meeting.wav") (ps "J") emptyDB
        = (.ok (ps "J", ps "J.wav"), emptyDB) ∧
    get_meeting_data false (ps "J") emptyDB = .ok none := by
  exact ⟨by decide, by decide⟩

/-- C1 (amended): the schema has no status column and ingress performs no
database write: an accepted upload returns the database unchanged (the
"processing" phase is represented by the record's absence), and a pipeline
run performs exactly one write — a single save_processed_data call with
some payload — after which, when the write succeeds, the job's record
exists (the terminal state). -/
theorem C1_amended_lifecycle :
    (∀ (ioErr : Bool) (filename fresh_job_id : PyStr) (db : DB),
        (upload_audio ioErr filename fresh_job_id db).2 = db) ∧
    (∀ (env : PipeEnv) (db : DB) (job_id filename ts : PyStr),
        ∃ pd : ProcessedData,
          process_audio_task env db job_id filename ts
            = (save_processed_data env.saveErr job_id filename pd ts db).1) ∧
    (∀ (env : PipeEnv) (db : DB) (job_id filename ts : PyStr), env.saveErr = false →
        ∃ m : Meeting,
          get_meeting_data false job_id (process_audio_task env db job_id filename ts)
            = .ok (some m)) := by
  refine ⟨?_, ?_, ?_⟩
  · intro ioErr filename fresh_job_id db
    by_cases hext : (splitextExt filename).map Char.toLower ∈ ALLOWED_EXTENSIONS
    · by_cases hio : ioErr = true <;> simp [upload_audio, hext, hio]
    · simp [upload_audio, hext]
  · intro env db job_id filename ts
    match henv : env.runtimeExc with
    | some e => exact ⟨error_data e, by simp [process_audio_task, henv]⟩
    | none => exact ⟨normalPayload env, by simp [process_audio_task, henv, normalPayload]⟩
  · intro env db job_id filename ts hs
    match henv : env.runtimeExc with
    | some e =>
        obtain ⟨m, hget, _⟩ := get_after_save job_id filename (error_data e) ts db
        refine ⟨m, ?_⟩
        rw [show process_audio_task env db job_id filename ts
            = (save_processed_data false job_id filename (error_data e) ts db).1 by
          simp [process_audio_task, henv, hs]]
        exact hget
    | none =>
        obtain ⟨m, hget, _⟩ := get_after_save job_id filename (normalPayload env) ts db
        refine ⟨m, ?_⟩
        rw [show process_audio_task env db job_id filename ts
            = (save_processed_data false job_id filename (normalPayload env) ts db).1 by
          simp [process_audio_task, henv, hs, normalPayload]]
        exact hget

/-- Witness for C1 (amended): a concrete successful pipeline run on the empty
database leaves the job's record present. -/
theorem C1_amended_lifecycle_witness :
    ({ asr := { modelLoaded := false, transcribeResult := .error [] }
       llm := { loaded := false, summaryRes := .ok [], actionRaw := .ok []
                decisionsRaw := .ok [] }
       runtimeExc := none, saveErr := false } : PipeEnv).saveErr = false ∧
    ∃ m : Meeting,
      get_meeting_data false (ps "J")
          (process_audio_task
            { asr := { modelLoaded := false, transcribeResult := .error [] }
              llm := { loaded := false, summaryRes := .ok [], actionRaw := .ok []
                       decisionsRaw := .ok [] }
              runtimeExc := none, saveErr := false }
            emptyDB (ps "J") (ps "J.wav") (ps "t0")) = .ok (some m) :=
  ⟨rfl, C1_amended_lifecycle.2.2 _ emptyDB (ps "J") (ps "J.wav") (ps "t0") rfl⟩

/-- C6 counterexample: with a record for J committed, a read hit by a
database error returns exactly the not-found value; a write hit by a
database error returns exactly the success value with the database rolled
back; and a pipeline whose final upsert fails leaves no record at all for
the job — there is no failed status anywhere. -/
theorem C6_counterexample :
    (get_meeting_data true (ps "J")
        (save_processed_data false (ps "J") (ps "f.wav")
          { transcript := ps "T", summary := ps "S", action_items := [], decisions := [] }
          (ps "t0") emptyDB).1 = .ok none) ∧
    (get_meeting_data false (ps "J") emptyDB = .ok none) ∧
    (∃ m : Meeting, get_meeting_data false (ps "J")
        (save_processed_data false (ps "J") (ps "f.wav")
          { transcript := ps "T", summary := ps "S", action_items := [], decisions := [] }
          (ps "t0") emptyDB).1 = .ok (some m)) ∧
    (save_processed_data true (ps "J") (ps "f.wav")
        { transcript := ps "T", summary := ps "S", action_items := [], decisions := [] }
        (ps "t0") emptyDB = (emptyDB, ())) ∧
    (search_transcripts true (ps "T") emptyDB = .ok []) ∧
    (process_audio_task
        { asr := { modelLoaded := false, transcribeResult := .error [] }
          llm := { loaded := false, summaryRes := .ok [], actionRaw := .ok []
                   decisionsRaw := .ok [] }
          runtimeExc := none, saveErr := true }
        emptyDB (ps "J") (ps "f.wav") (ps "t0") = emptyDB) := by
  refine ⟨by decide, by decide,
    ⟨{ job_id := ps "J", filename := ps "f.wav", transcript := ps "T", summary := ps "S"
       action_items := [], decisions := [], timestamp := ps "t0" }, by decide⟩,
    by decide, by decide, by decide⟩

/-- C6 (amended): storage errors are swallowed, not propagated: a failing
upsert rolls back and returns the same value as a successful one, a
failing get returns None exactly like a missing id, a failing search
returns the empty list exactly like a query with no matches, and a failed
upsert during pipeline completion leaves the job with no record (there is
no failed status; a job id absent before the task is still absent after
it). -/
theorem C6_amended_storage_errors_swallowed :
    (∀ (job_id filename : PyStr) (pd : ProcessedData) (ts : PyStr) (db : DB),
        save_processed_data true job_id filename pd ts db = (db, ())) ∧
    (∀ (job_id : PyStr) (db : DB), get_meeting_data true job_id db = .ok none) ∧
    (∀ (query : PyStr) (db : DB), search_transcripts true query db = .ok []) ∧
    (∀ (env : PipeEnv) (db : DB) (job_id filename ts : PyStr), env.saveErr = true →
        process_audio_task env db job_id filename ts = db) := by
  refine ⟨fun _ _ _ _ _ => rfl, fun _ _ => rfl, fun _ _ => rfl, ?_⟩
  intro env db job_id filename ts hs
  match henv : env.runtimeExc with
  | some e => simp [process_audio_task, henv, hs, save_processed_data]
  | none => simp [process_audio_task, henv, hs, save_processed_data]

/-- Witness for C6 (amended): a concrete pipeline run whose final upsert
fails leaves the empty database unchanged. -/
theorem C6_amended_storage_errors_swallowed_witness :
    ({ asr := { modelLoaded := false, transcribeResult := .error [] }
       llm := { loaded := false, summaryRes := .ok [], actionRaw := .ok []
                decisionsRaw := .ok [] }
       runtimeExc := none, saveErr := true } : PipeEnv).saveErr = true ∧
    process_audio_task
        { asr := { modelLoaded := false, transcribeResult := .error [] }
          llm := { loaded := false, summaryRes := .ok [], actionRaw := .ok []
                   decisionsRaw := .ok [] }
          runtimeExc := none, saveErr := true }
        emptyDB (ps "J") (ps "f.wav") (ps "t0") = emptyDB :=
  ⟨rfl, C6_amended_storage_errors_swallowed.2.2.2 _ emptyDB (ps "J") (ps "f.wav") (ps "t0") rfl⟩

theorem updRow_job_id (job_id filename : PyStr) (pd : ProcessedData) (ts : PyStr) (r : Row) :
    (updRow job_id filename pd ts r).job_id = r.job_id := by
  by_cases h : r.job_id = job_id <;> simp [updRow, h]

/-- A successful save preserves uniqueness of the stored job ids. -/
theorem save_jobIds_nodup (job_id filename : PyStr) (pd : ProcessedData) (ts : PyStr)
    (db : DB) (h : (db.meetings.map Row.job_id).Nodup) :
    ((save_processed_data false job_id filename pd ts db).1.meetings.map Row.job_id).Nodup := by
  rw [save_meetings_eq]
  cases hfind : db.meetings.find? (fun r => decide (r.job_id = job_id)) with
  | none =>
      have hnotin : ∀ r ∈ db.meetings, ¬r.job_id = job_id := by
        intro r hr
        have := List.find?_eq_none.mp hfind r hr
        simpa using this
      simp only [List.map_append, List.map_cons, List.map_nil]
      rw [List.nodup_append]
      refine ⟨h, List.nodup_singleton _, ?_⟩
      intro a ha hb
      simp only [List.mem_singleton] at hb
      obtain ⟨r, hr, hra⟩ := List.mem_map.mp ha
      exact hnotin r hr (by rw [hra, hb])
  | some r0 =>
      rw [List.map_map]
      have : db.meetings.map (Row.job_id ∘ updRow job_id filename pd ts)
          = db.meetings.map Row.job_id :=
        List.map_congr_left (fun r _ => updRow_job_id job_id filename pd ts r)
      rw [this]
      exact h

/-- In a list whose images under `f` are distinct, the elements mapping to
the image of a member are exactly that member. -/
theorem filter_eq_val_length_one {α β : Type} [DecidableEq β] (f : α → β) (v : β) :
    ∀ (l : List α), (l.map f).Nodup → ∀ a ∈ l, f a = v →
      (l.filter (fun x => decide (f x = v))).length = 1 := by
  intro l
  induction l with
  | nil => intro _ a ha; cases ha
  | cons b tl ih =>
      intro hnd a ha hfa
      simp only [List.map_cons, List.nodup_cons] at hnd
      obtain ⟨hbnotin, hndtl⟩ := hnd
      rcases List.mem_cons.mp ha with hab | hatl
      · subst hab
        have htl : tl.filter (fun x => decide (f x = v)) = [] := by
          rw [List.filter_eq_nil_iff]
          intro x hx
          simp only [decide_eq_true_eq]
          intro hxv
          exact hbnotin (by rw [hfa, ← hxv]; exact List.mem_map_of_mem f hx)
        simp [List.filter_cons, hfa, htl]
      · have hbv : ¬f b = v := by
          intro hbv
          apply hbnotin
          rw [hbv, ← hfa]
          exact List.mem_map_of_mem f hatl
        simp [List.filter_cons, hbv, ih hndtl a hatl hfa]

/-- C5: calling upsert twice for the same id with two payloads leaves exactly
one record for that id, whose mutable fields equal the second payload's
values (and the refreshed timestamp). -/
theorem C5_upsert_overwrite_no_duplicate (job_id filename1 filename2 : PyStr)
    (pd1 pd2 : ProcessedData) (ts1 ts2 : PyStr) (db : DB)
    (h : (db.meetings.map Row.job_id).Nodup) :
    ((save_processed_data false job_id filename2 pd2 ts2
        (save_processed_data false job_id filename1 pd1 ts1 db).1).1.meetings.filter
          (fun r => decide (r.job_id = job_id))).length = 1 ∧
    ∃ m : Meeting,
      get_meeting_data false job_id
          (save_processed_data false job_id filename2 pd2 ts2
            (save_processed_data false job_id filename1 pd1 ts1 db).1).1 = .ok (some m) ∧
      m.filename = filename2 ∧ m.transcript = pd2.transcript ∧ m.summary = pd2.summary ∧
      m.action_items = pd2.action_items ∧ m.decisions = pd2.decisions ∧
      m.timestamp = ts2 := by
  constructor
  · have h1 := save_jobIds_nodup job_id filename1 pd1 ts1 db h
    have h2 := save_jobIds_nodup job_id filename2 pd2 ts2 _ h1
    obtain ⟨r, hfind, hrid, _⟩ := find?_after_save job_id filename2 pd2 ts2
      (save_processed_data false job_id filename1 pd1 ts1 db).1
    exact filter_eq_val_length_one Row.job_id job_id _ h2 r
      (List.mem_of_find?_eq_some hfind) hrid
  · obtain ⟨m, hget, _, h2, h3, h4, h5, h6, h7⟩ := get_after_save job_id filename2 pd2 ts2
      (save_processed_data false job_id filename1 pd1 ts1 db).1
    exact ⟨m, hget, h2, h3, h4, h5, h6, h7⟩

/-- Witness for C5: two concrete upserts on the empty database leave exactly
one record carrying the second payload. -/
theorem C5_upsert_overwrite_no_duplicate_witness :
    ((emptyDB.meetings.map Row.job_id).Nodup) ∧
    ((save_processed_data false (ps "J") (ps "b.wav")
        { transcript := ps "T2", summary := ps "S2", action_items := [ps "a"], decisions := [] }
        (ps "t2")
        (save_processed_data false (ps "J") (ps "a.wav")
          { transcript := ps "T1", summary := ps "S1", action_items := [], decisions := [] }
          (ps "t1") emptyDB).1).1.meetings.filter
            (fun r => decide (r.job_id = ps "J"))).length = 1 ∧
    ∃ m : Meeting,
      get_meeting_data false (ps "J")
          (save_processed_data false (ps "J") (ps "b.wav")
            { transcript := ps "T2", summary := ps "S2", action_items := [ps "a"]
              decisions := [] }
            (ps "t2")
            (save_processed_data false (ps "J") (ps "a.wav")
              { transcript := ps "T1", summary := ps "S1", action_items := [], decisions := [] }
              (ps "t1") emptyDB).1).1 = .ok (some m) ∧
      m.filename = ps "b.wav" ∧ m.transcript = ps "T2" ∧ m.summary = ps "S2" ∧
      m.action_items = [ps "a"] ∧ m.decisions = [] ∧ m.timestamp = ps "t2" := by
  refine ⟨by decide, ?_, ?_⟩
  · exact (C5_upsert_overwrite_no_duplicate (ps "J") (ps "a.wav") (ps "b.wav")
      { transcript := ps "T1", summary := ps "S1", action_items := [], decisions := [] }
      { transcript := ps "T2", summary := ps "S2", action_items := [ps "a"], decisions := [] }
      (ps "t1") (ps "t2") emptyDB (by decide)).1
  · exact (C5_upsert_overwrite_no_duplicate (ps "J") (ps "a.wav") (ps "b.wav")
      { transcript := ps "T1", summary := ps "S1", action_items := [], decisions := [] }
      { transcript := ps "T2", summary := ps "S2", action_items := [ps "a"], decisions := [] }
      (ps "t1") (ps "t2") emptyDB (by decide)).2

theorem mem_le_foldr_max (l : List Row) (r : Row) (hr : r ∈ l) :
    r.rowid ≤ l.foldr (fun r acc => max r.rowid acc) 0 := by
  induction l with
  | nil => cases hr
  | cons a tl ih =>
      rcases List.mem_cons.mp hr with h | h
      · subst h
        exact le_max_left _ _
      · exact le_trans (ih h) (le_max_right _ _)

/-- Every stored rowid is strictly below the next allocated one. -/
theorem rowid_lt_nextRowid (db : DB) (r : Row) (hr : r ∈ db.meetings) :
    r.rowid < nextRowid db :=
  Nat.lt_succ_of_le (mem_le_foldr_max db.meetings r hr)

/-- Invariants of every database state reachable through the program's own
operations: rowids and job ids are unique in `meetings`, the stored JSON
fields are images of `jsonDumps`, and every row's transcript terms are
posted in the index at the row's rowid.  (The converse is deliberately
absent: the index may hold stale postings, see `save_processed_data` and
`delete_meeting`.) -/
structure DBInv (db : DB) : Prop where
  rowids_nodup : (db.meetings.map Row.rowid).Nodup
  jobids_nodup : (db.meetings.map Row.job_id).Nodup
  json_ok : ∀ r ∈ db.meetings,
    (∃ l, r.action_items = jsonDumps l) ∧ (∃ l, r.decisions = jsonDumps l)
  fts_covers : ∀ r ∈ db.meetings, ∀ t ∈ tokenize r.transcript,
    ({ rowid := r.rowid, term := t } : FtsPost) ∈ db.fts

theorem updRow_rowid (job_id filename : PyStr) (pd : ProcessedData) (ts : PyStr) (r : Row) :
    (updRow job_id filename pd ts r).rowid = r.rowid := by
  by_cases h : r.job_id = job_id <;> simp [updRow, h]

theorem save_inv (job_id filename : PyStr) (pd : ProcessedData) (ts : PyStr) (db : DB)
    (inv : DBInv db) (dbErr : Bool) :
    DBInv (save_processed_data dbErr job_id filename pd ts db).1 := by
  cases dbErr with
  | true => exact inv
  | false =>
  cases hfind : db.meetings.find? (fun r => decide (r.job_id = job_id)) with
  | none =>
      have hmeet : (save_processed_data false job_id filename pd ts db).1.meetings
          = db.meetings ++
            [{ rowid := nextRowid db, job_id := job_id, filename := filename
               transcript := pd.transcript, summary := pd.summary
               action_items := jsonDumps pd.action_items
               decisions := jsonDumps pd.decisions, timestamp := ts }] := by
        simp [save_processed_data, hfind]
      have hfts : (save_processed_data false job_id filename pd ts db).1.fts
          = db.fts ++ postsOf (nextRowid db) pd.transcript := by
        simp [save_processed_data, hfind]
      refine { rowids_nodup := ?_, jobids_nodup := ?_, json_ok := ?_, fts_covers := ?_ }
      · rw [hmeet]
        simp only [List.map_append, List.map_cons, List.map_nil]
        rw [List.nodup_append]
        refine ⟨inv.rowids_nodup, List.nodup_singleton _, ?_⟩
        intro a ha hb
        simp only [List.mem_singleton] at hb
        obtain ⟨r, hr, hra⟩ := List.mem_map.mp ha
        have := rowid_lt_nextRowid db r hr
        omega
      · exact save_jobIds_nodup job_id filename pd ts db inv.jobids_nodup
      · intro r hr
        rw [hmeet] at hr
        rcases List.mem_append.mp hr with hold | hnew
        · exact inv.json_ok r hold
        · simp only [List.mem_singleton] at hnew
          subst hnew
          exact ⟨⟨pd.action_items, rfl⟩, ⟨pd.decisions, rfl⟩⟩
      · intro r hr t ht
        rw [hmeet] at hr
        rw [hfts]
        rcases List.mem_append.mp hr with hold | hnew
        · exact List.mem_append_left _ (inv.fts_covers r hold t ht)
        · simp only [List.mem_singleton] at hnew
          subst hnew
          exact List.mem_append_right _ (List.mem_map_of_mem _ ht)
  | some r0 =>
      have hr0mem : r0 ∈ db.meetings := List.mem_of_find?_eq_some hfind
      have hp0 := List.find?_some hfind
      have hr0id : r0.job_id = job_id := of_decide_eq_true hp0
      have hmeet : (save_processed_data false job_id filename pd ts db).1.meetings
          = db.meetings.map (updRow job_id filename pd ts) := by
        simp [save_processed_data, hfind, updRow]
      have hfts : (save_processed_data false job_id filename pd ts db).1.fts
          = (db.fts.filter (fun p =>
              decide (¬(p.rowid = r0.rowid ∧ p.term ∈ tokenize pd.transcript))))
            ++ postsOf r0.rowid pd.transcript := by
        simp [save_processed_data, hfind]
      refine { rowids_nodup := ?_, jobids_nodup := ?_, json_ok := ?_, fts_covers := ?_ }
      · rw [hmeet, List.map_map]
        have hsame : db.meetings.map (Row.rowid ∘ updRow job_id filename pd ts)
            = db.meetings.map Row.rowid :=
          List.map_congr_left (fun r _ => updRow_rowid job_id filename pd ts r)
        rw [hsame]
        exact inv.rowids_nodup
      · rw [hmeet, List.map_map]
        have hsame : db.meetings.map (Row.job_id ∘ updRow job_id filename pd ts)
            = db.meetings.map Row.job_id :=
          List.map_congr_left (fun r _ => updRow_job_id job_id filename pd ts r)
        rw [hsame]
        exact inv.jobids_nodup
      · intro r hr
        rw [hmeet] at hr
        obtain ⟨r1, hr1, hr1eq⟩ := List.mem_map.mp hr
        by_cases hj : r1.job_id = job_id
        · rw [← hr1eq]
          simp only [updRow, hj, if_pos]
          exact ⟨⟨pd.action_items, rfl⟩, ⟨pd.decisions, rfl⟩⟩
        · rw [← hr1eq]
          simp only [updRow, hj, if_neg, if_false]
          exact inv.json_ok r1 hr1
      · intro r hr t ht
        rw [hmeet] at hr
        rw [hfts]
        obtain ⟨r1, hr1, hr1eq⟩ := List.mem_map.mp hr
        by_cases hj : r1.job_id = job_id
        · have hr1r0 : r1 = r0 :=
            List.inj_on_of_nodup_map inv.jobids_nodup hr1 hr0mem (by rw [hj, hr0id])
          have hrdef : r = updRow job_id filename pd ts r1 := hr1eq.symm
          have htr : r.transcript = pd.transcript := by
            rw [hrdef]
            simp [updRow, hj]
          have hrow : r.rowid = r0.rowid := by
            rw [hrdef, updRow_rowid, hr1r0]
          rw [htr] at ht
          rw [hrow]
          exact List.mem_append_right _ (List.mem_map_of_mem _ ht)
        · have hrdef : r = r1 := by
            rw [← hr1eq]
            simp [updRow, hj]
          subst hrdef
          have hr1ne : ¬r = r0 := fun he => hj (by rw [he, hr0id])
          have hrowne : ¬r.rowid = r0.rowid := fun he =>
            hr1ne (List.inj_on_of_nodup_map inv.rowids_nodup hr1 hr0mem he)
          have hmem := inv.fts_covers r hr1 t ht
          refine List.mem_append_left _ (List.mem_filter.mpr ⟨hmem, ?_⟩)
          simp [hrowne]

theorem delete_inv (job_id : PyStr) (db : DB) (inv : DBInv db) :
    DBInv (delete_meeting job_id db) := by
  refine { rowids_nodup := ?_, jobids_nodup := ?_, json_ok := ?_, fts_covers := ?_ }
  · exact inv.rowids_nodup.sublist (List.Sublist.map Row.rowid (List.filter_sublist _))
  · exact inv.jobids_nodup.sublist (List.Sublist.map Row.job_id (List.filter_sublist _))
  · intro r hr
    exact inv.json_ok r (List.mem_of_mem_filter hr)
  · intro r hr t ht
    exact inv.fts_covers r (List.mem_of_mem_filter hr) t ht

/-- Every reachable database state satisfies the invariants. -/
theorem reach_inv (db : DB) (h : Reach db) : DBInv db := by
  induction h with
  | init =>
      refine { rowids_nodup := List.nodup_nil, jobids_nodup := List.nodup_nil
               json_ok := ?_, fts_covers := ?_ }
      · intro r hr
        exact absurd hr (List.not_mem_nil r)
      · intro r hr
        exact absurd hr (List.not_mem_nil r)
  | save db dbErr job_id filename pd ts _ ih => exact save_inv job_id filename pd ts db ih dbErr
  | del db job_id _ ih => exact delete_inv job_id db ih

theorem decodeRow_ok (r : Row) (h1 : ∃ l, r.action_items = jsonDumps l)
    (h2 : ∃ l, r.decisions = jsonDumps l) : ∃ m, decodeRow r = some m := by
  obtain ⟨l1, hl1⟩ := h1
  obtain ⟨l2, hl2⟩ := h2
  exact ⟨{ job_id := r.job_id, filename := r.filename, transcript := r.transcript
           summary := r.summary, action_items := l1, decisions := l2
           timestamp := r.timestamp },
    by simp [decodeRow, hl1, hl2, jsonLoads_jsonDumps]⟩

theorem decodeRows_ok (rows : List Row)
    (h : ∀ r ∈ rows, (∃ l, r.action_items = jsonDumps l) ∧ (∃ l, r.decisions = jsonDumps l)) :
    ∃ ms, decodeRows rows = .ok ms := by
  induction rows with
  | nil => exact ⟨[], rfl⟩
  | cons r rest ih =>
      obtain ⟨m, hm⟩ := decodeRow_ok r (h r (List.mem_cons_self r rest)).1
        (h r (List.mem_cons_self r rest)).2
      obtain ⟨ms, hms⟩ := ih (fun r2 hr2 => h r2 (List.mem_cons_of_mem r hr2))
      exact ⟨m :: ms, by simp [decodeRows, hm, hms, Except.map]⟩

theorem decodeRow_job_id (r : Row) (m : Meeting) (h : decodeRow r = some m) :
    m.job_id = r.job_id := by
  unfold decodeRow at h
  cases h1 : jsonLoads r.action_items with
  | none => rw [h1] at h; cases h
  | some l1 =>
      cases h2 : jsonLoads r.decisions with
      | none => rw [h1, h2] at h; cases h
      | some l2 =>
          rw [h1, h2] at h
          injection h with h
          rw [← h]

theorem decodeRows_map_job_id (rows : List Row) : ∀ ms, decodeRows rows = .ok ms →
    ms.map Meeting.job_id = rows.map Row.job_id := by
  induction rows with
  | nil =>
      intro ms h
      injection h with h
      rw [← h]
      rfl
  | cons r rest ih =>
      intro ms h
      unfold decodeRows at h
      cases hd : decodeRow r with
      | none => rw [hd] at h; cases h
      | some m =>
          rw [hd] at h
          cases hrest : decodeRows rest with
          | error e => rw [hrest] at h; cases h
          | ok ms2 =>
              rw [hrest] at h
              injection h with h
              rw [← h]
              simp [ih ms2 hrest, decodeRow_job_id r m hd]

theorem joined_mem (db : DB) (rowids : List Nat) :
    ∀ r ∈ rowids.filterMap (fun rid => db.meetings.find? (fun r => decide (r.rowid = rid))),
      r ∈ db.meetings := by
  intro r hr
  obtain ⟨rid, _, hfind⟩ := List.mem_filterMap.mp hr
  exact List.mem_of_find?_eq_some hfind

/-- A search returns a record whenever it is stored and every query token is
posted at its rowid. -/
theorem search_contains (db : DB) (inv : DBInv db) (query : PyStr) (r : Row)
    (hr : r ∈ db.meetings) (hq : (tokenize query).isEmpty = false)
    (hpost : ∀ t ∈ tokenize query, ({ rowid := r.rowid, term := t } : FtsPost) ∈ db.fts) :
    ∃ ms : List Meeting, search_transcripts false query db = .ok ms ∧
      r.job_id ∈ ms.map Meeting.job_id := by
  obtain ⟨t0, ht0⟩ : ∃ t, t ∈ tokenize query := by
    cases htk : tokenize query with
    | nil => rw [htk] at hq; cases hq
    | cons a l => exact ⟨a, by simp [htk]⟩
  have hrid : r.rowid ∈ (db.fts.map FtsPost.rowid).dedup := by
    rw [List.mem_dedup]
    exact List.mem_map.mpr ⟨_, hpost t0 ht0, rfl⟩
  have hmatched : r.rowid ∈ (db.fts.map FtsPost.rowid).dedup.filter (fun rid =>
      (tokenize query).all (fun t =>
        decide (({ rowid := rid, term := t } : FtsPost) ∈ db.fts))) := by
    refine List.mem_filter.mpr ⟨hrid, ?_⟩
    rw [List.all_eq_true]
    intro t ht
    exact decide_eq_true (hpost t ht)
  have hfind : db.meetings.find? (fun r2 => decide (r2.rowid = r.rowid)) = some r := by
    cases hf : db.meetings.find? (fun r2 => decide (r2.rowid = r.rowid)) with
    | none =>
        exfalso
        have := List.find?_eq_none.mp hf r hr
        simp at this
    | some r2 =>
        have hr2mem := List.mem_of_find?_eq_some hf
        have hp2 := List.find?_some hf
        have hr2row : r2.rowid = r.rowid := of_decide_eq_true hp2
        rw [List.inj_on_of_nodup_map inv.rowids_nodup hr2mem hr hr2row]
  have hjoined : r ∈ ((db.fts.map FtsPost.rowid).dedup.filter (fun rid =>
      (tokenize query).all (fun t =>
        decide (({ rowid := rid, term := t } : FtsPost) ∈ db.fts)))).filterMap
        (fun rid => db.meetings.find? (fun r2 => decide (r2.rowid = rid))) :=
    List.mem_filterMap.mpr ⟨r.rowid, hmatched, hfind⟩
  obtain ⟨ms, hms⟩ := decodeRows_ok
    (((db.fts.map FtsPost.rowid).dedup.filter (fun rid =>
        (tokenize query).all (fun t =>
          decide (({ rowid := rid, term := t } : FtsPost) ∈ db.fts)))).filterMap
        (fun rid => db.meetings.find? (fun r2 => decide (r2.rowid = rid))))
    (fun r2 hr2 => inv.json_ok r2 (joined_mem db _ r2 hr2))
  refine ⟨ms, ?_, ?_⟩
  · simp only [search_transcripts, Bool.false_eq_true, if_false, hq]
    exact hms
  · rw [decodeRows_map_job_id _ ms hms]
    exact List.mem_map_of_mem Row.job_id hjoined

/-- Whatever a search returns belongs to an existing record: the inner join
drops every posting whose rowid has no `meetings` row, so a deleted (or
never-stored) id can never appear in a result set. -/
theorem search_ids_exist (db : DB) (query : PyStr) (ms : List Meeting)
    (hms : search_transcripts false query db = .ok ms) :
    ∀ j ∈ ms.map Meeting.job_id, ∃ r ∈ db.meetings, r.job_id = j := by
  intro j hj
  by_cases hq : (tokenize query).isEmpty = true
  · have hempty : ms = ([] : List Meeting) := by
      simp only [search_transcripts, Bool.false_eq_true, if_false, hq, if_true] at hms
      injection hms with hms
      exact hms.symm
    subst hempty
    simp at hj
  · simp only [Bool.not_eq_true] at hq
    have hdec : decodeRows (((db.fts.map FtsPost.rowid).dedup.filter (fun rid =>
        (tokenize query).all (fun t =>
          decide (({ rowid := rid, term := t } : FtsPost) ∈ db.fts)))).filterMap
          (fun rid => db.meetings.find? (fun r2 => decide (r2.rowid = rid)))) = .ok ms := by
      simpa only [search_transcripts, Bool.false_eq_true, if_false, hq] using hms
    rw [decodeRows_map_job_id _ ms hdec] at hj
    obtain ⟨r, hrj, hrid⟩ := List.mem_map.mp hj
    exact ⟨r, joined_mem db _ r hrj, hrid⟩

/-- C7: for every reachable database state, every read operation (get,
search, list-all) succeeds: no stored value ever needs a secondary parse
that could fail, and the decoded action_items and decisions of every
returned record are genuine lists of strings (by the return type), never
null. -/
theorem C7_reads_always_wellformed (db : DB) (h : Reach db) :
    (∀ job_id : PyStr, ∃ v : Option Meeting, get_meeting_data false job_id db = .ok v) ∧
    (∀ query : PyStr, ∃ ms : List Meeting, search_transcripts false query db = .ok ms) ∧
    (∃ ms : List Meeting, get_all_meeting_data false db = .ok ms) := by
  have inv := reach_inv db h
  refine ⟨?_, ?_, ?_⟩
  · intro job_id
    cases hfind : db.meetings.find? (fun r => decide (r.job_id = job_id)) with
    | none => exact ⟨none, by simp [get_meeting_data, hfind]⟩
    | some r =>
        have hmem := List.mem_of_find?_eq_some hfind
        obtain ⟨m, hm⟩ := decodeRow_ok r (inv.json_ok r hmem).1 (inv.json_ok r hmem).2
        exact ⟨some m, by simp [get_meeting_data, hfind, hm]⟩
  · intro query
    by_cases hq : (tokenize query).isEmpty = true
    · exact ⟨[], by simp [search_transcripts, hq]⟩
    · simp only [Bool.not_eq_true] at hq
      obtain ⟨ms, hms⟩ := decodeRows_ok
        (((db.fts.map FtsPost.rowid).dedup.filter (fun rid =>
            (tokenize query).all (fun t =>
              decide (({ rowid := rid, term := t } : FtsPost) ∈ db.fts)))).filterMap
            (fun rid => db.meetings.find? (fun r2 => decide (r2.rowid = rid))))
        (fun r2 hr2 => inv.json_ok r2 (joined_mem db _ r2 hr2))
      refine ⟨ms, ?_⟩
      simp only [search_transcripts, Bool.false_eq_true, if_false, hq]
      exact hms
  · obtain ⟨ms, hms⟩ := decodeRows_ok db.meetings (fun r hr => inv.json_ok r hr)
    exact ⟨ms, by simp only [get_all_meeting_data, Bool.false_eq_true, if_false]; exact hms⟩

/-- Witness for C7: the read operations succeed on the (reachable) empty
database. -/
theorem C7_reads_always_wellformed_witness :
    (∃ v : Option Meeting, get_meeting_data false (ps "Z") emptyDB = .ok v) ∧
    (∃ ms : List Meeting, search_transcripts false (ps "hello") emptyDB = .ok ms) ∧
    (∃ ms : List Meeting, get_all_meeting_data false emptyDB = .ok ms) :=
  ⟨(C7_reads_always_wellformed emptyDB Reach.init).1 (ps "Z"),
   (C7_reads_always_wellformed emptyDB Reach.init).2.1 (ps "hello"),
   (C7_reads_always_wellformed emptyDB Reach.init).2.2⟩

/-- First write of the C3 counterexample scenario: job J with transcript
"hello world". -/
def pdHello : ProcessedData :=
  { transcript := ps "hello world", summary := ps "S1", action_items := [], decisions := [] }

/-- Second write of the scenario: the upsert that changes J's transcript to
"goodbye moon". -/
def pdGoodbye : ProcessedData :=
  { transcript := ps "goodbye moon", summary := ps "S2", action_items := [], decisions := [] }

/-- Third write of the scenario: job K, inserted after J's deletion, reusing
J's freed rowid. -/
def pdOther : ProcessedData :=
  { transcript := ps "other text", summary := ps "S3", action_items := [], decisions := [] }

/-- The database after upserting J with "hello world". -/
def dbJ1 : DB := (save_processed_data false (ps "J") (ps "f.wav") pdHello (ps "t1") emptyDB).1

/-- The database after the second upsert of J, now with "goodbye moon". -/
def dbJ2 : DB := (save_processed_data false (ps "J") (ps "f.wav") pdGoodbye (ps "t2") dbJ1).1

/-- The database after deleting J. -/
def dbJdel : DB := delete_meeting (ps "J") dbJ2

/-- The database after inserting K, which reuses J's rowid. -/
def dbK : DB := (save_processed_data false (ps "K") (ps "g.wav") pdOther (ps "t3") dbJdel).1

/-- C3 counterexample: the trigger scheme does not keep the index consistent
with the record store.  After upserting job J with transcript "hello world"
and upserting J again with transcript "goodbye moon", a search for "hello"
still returns J although J's stored transcript no longer contains that term
(a stale posting survives the committed write); after deleting J the record
is gone but every posting remains (index entries for an id with no record);
and once J's freed rowid is reused by job K, the stale postings resurface:
a search for "hello" returns K, whose transcript contains neither "hello"
nor "goodbye". -/
theorem C3_counterexample :
    (search_transcripts false (ps "hello") dbJ2
        = .ok [{ job_id := ps "J", filename := ps "f.wav"
                 transcript := ps "goodbye moon", summary := ps "S2"
                 action_items := [], decisions := [], timestamp := ps "t2" }] ∧
      ¬ps "hello" ∈ tokenize (ps "goodbye moon")) ∧
    (dbJdel.meetings = [] ∧ ¬dbJdel.fts = []) ∧
    (search_transcripts false (ps "hello") dbK
        = .ok [{ job_id := ps "K", filename := ps "g.wav"
                 transcript := ps "other text", summary := ps "S3"
                 action_items := [], decisions := [], timestamp := ps "t3" }] ∧
      ¬ps "hello" ∈ tokenize (ps "other text")) := by
  refine ⟨⟨?_, ?_⟩, ⟨?_, ?_⟩, ⟨?_, ?_⟩⟩ <;> decide

/-- C3 (amended): searches reflect committed writes and never fabricate
absent ids — a committed write (insert or upsert-update) is immediately
searchable by the terms of its new transcript, and a search never returns
the id of a deleted record — but the index is not always consistent with
the record store: the update trigger leaves the previous transcript's
postings in place, so immediately after an upsert that changes a record's
transcript, a search for a term of the old transcript still returns that
record. -/
theorem C3_amended_search_behavior (db : DB) (h : Reach db)
    (job_id filename : PyStr) (pd : ProcessedData) (ts query : PyStr)
    (hq : (tokenize query).isEmpty = false)
    (hmatch : ∀ t ∈ tokenize query, t ∈ tokenize pd.transcript) :
    (∃ ms : List Meeting,
        search_transcripts false query
            (save_processed_data false job_id filename pd ts db).1 = .ok ms ∧
        job_id ∈ ms.map Meeting.job_id) ∧
    (∀ (db2 : DB) (q j : PyStr) (ms : List Meeting),
        search_transcripts false q (delete_meeting j db2) = .ok ms →
        ¬j ∈ ms.map Meeting.job_id) ∧
    (∀ (r0 : Row) (pd2 : ProcessedData) (fn2 ts2 q2 : PyStr),
        db.meetings.find? (fun r => decide (r.job_id = job_id)) = some r0 →
        (tokenize q2).isEmpty = false →
        (∀ t ∈ tokenize q2, t ∈ tokenize r0.transcript) →
        ∃ ms : List Meeting,
          search_transcripts false q2
              (save_processed_data false job_id fn2 pd2 ts2 db).1 = .ok ms ∧
          job_id ∈ ms.map Meeting.job_id) := by
  refine ⟨?_, ?_, ?_⟩
  · have hreach1 : Reach (save_processed_data false job_id filename pd ts db).1 :=
      Reach.save db false job_id filename pd ts h
    have inv1 := reach_inv _ hreach1
    obtain ⟨rN, hfindN, hNid, _, hNtr, _, _, _, _⟩ := find?_after_save job_id filename pd ts db
    have hNmem := List.mem_of_find?_eq_some hfindN
    have hpost : ∀ t ∈ tokenize query,
        ({ rowid := rN.rowid, term := t } : FtsPost)
          ∈ (save_processed_data false job_id filename pd ts db).1.fts := by
      intro t ht
      apply inv1.fts_covers rN hNmem
      rw [hNtr]
      exact hmatch t ht
    obtain ⟨ms, hms, hin⟩ := search_contains _ inv1 query rN hNmem hq hpost
    refine ⟨ms, hms, ?_⟩
    rw [← hNid]
    exact hin
  · intro db2 q j ms hms hin
    obtain ⟨r, hrmem, hrid⟩ := search_ids_exist _ q ms hms j hin
    have hpred := (List.mem_filter.mp hrmem).2
    exact (of_decide_eq_true hpred) hrid
  · intro r0 pd2 fn2 ts2 q2 hfind0 hq2 hmatch2
    have inv0 := reach_inv db h
    have hreach1 : Reach (save_processed_data false job_id fn2 pd2 ts2 db).1 :=
      Reach.save db false job_id fn2 pd2 ts2 h
    have inv1 := reach_inv _ hreach1
    have hr0mem : r0 ∈ db.meetings := List.mem_of_find?_eq_some hfind0
    have hp0 := List.find?_some hfind0
    have hr0id : r0.job_id = job_id := of_decide_eq_true hp0
    have hmeet : (save_processed_data false job_id fn2 pd2 ts2 db).1.meetings
        = db.meetings.map (updRow job_id fn2 pd2 ts2) := by
      simp [save_processed_data, hfind0, updRow]
    have hfts : (save_processed_data false job_id fn2 pd2 ts2 db).1.fts
        = (db.fts.filter (fun p =>
            decide (¬(p.rowid = r0.rowid ∧ p.term ∈ tokenize pd2.transcript))))
          ++ postsOf r0.rowid pd2.transcript := by
      simp [save_processed_data, hfind0]
    have hNmem : updRow job_id fn2 pd2 ts2 r0
        ∈ (save_processed_data false job_id fn2 pd2 ts2 db).1.meetings := by
      rw [hmeet]
      exact List.mem_map_of_mem _ hr0mem
    have hpost : ∀ t ∈ tokenize q2,
        ({ rowid := (updRow job_id fn2 pd2 ts2 r0).rowid, term := t } : FtsPost)
          ∈ (save_processed_data false job_id fn2 pd2 ts2 db).1.fts := by
      intro t ht
      rw [hfts, updRow_rowid]
      have hold : ({ rowid := r0.rowid, term := t } : FtsPost) ∈ db.fts :=
        inv0.fts_covers r0 hr0mem t (hmatch2 t ht)
      by_cases hnew : t ∈ tokenize pd2.transcript
      · exact List.mem_append_right _ (List.mem_map_of_mem _ hnew)
      · refine List.mem_append_left _ (List.mem_filter.mpr ⟨hold, ?_⟩)
        simp [hnew]
    obtain ⟨ms, hms, hin⟩ := search_contains _ inv1 q2 _ hNmem hq2 hpost
    refine ⟨ms, hms, ?_⟩
    have hjid : (updRow job_id fn2 pd2 ts2 r0).job_id = job_id := by
      rw [updRow_job_id, hr0id]
    rw [← hjid]
    exact hin

/-- Witness for C3 (amended): a concrete committed write on the empty
database is immediately searchable by a term of its transcript. -/
theorem C3_amended_search_behavior_witness :
    (tokenize (ps "hello")).isEmpty = false ∧
    (∀ t ∈ tokenize (ps "hello"), t ∈ tokenize (ps "hello world")) ∧
    (∃ ms : List Meeting,
        search_transcripts false (ps "hello")
            (save_processed_data false (ps "J") (ps "f.wav")
              { transcript := ps "hello world", summary := ps "S", action_items := []
                decisions := [] } (ps "t0") emptyDB).1 = .ok ms ∧
        ps "J" ∈ ms.map Meeting.job_id) :=
  ⟨by decide, by decide,
   (C3_amended_search_behavior emptyDB Reach.init (ps "J") (ps "f.wav")
      { transcript := ps "hello world", summary := ps "S", action_items := []
        decisions := [] } (ps "t0") (ps "hello") (by decide) (by decide)).1⟩

theorem sepJoin_append (sep : PyStr) : ∀ (xs ys : List PyStr), xs ≠ [] → ys ≠ [] →
    sepJoin sep (xs ++ ys) = sepJoin sep xs ++ sep ++ sepJoin sep ys := by
  intro xs
  induction xs with
  | nil => intro ys h _; cases h rfl
  | cons x xs ih =>
      intro ys _ hys
      cases xs with
      | nil =>
          cases ys with
          | nil => cases hys rfl
          | cons y ys2 => simp [sepJoin]
      | cons x2 xs2 =>
          have hrec := ih ys (by simp) hys
          have hcons : (x2 :: xs2) ++ ys = x2 :: (xs2 ++ ys) := rfl
          show sepJoin sep (x :: ((x2 :: xs2) ++ ys)) = _
          rw [hcons]
          show x ++ sep ++ sepJoin sep (x2 :: (xs2 ++ ys)) = _
          rw [← hcons, hrec]
          simp [sepJoin, List.append_assoc]

theorem sepJoin_cons_append (sep x : PyStr) (l1 l2 : List PyStr) (h2 : l2 ≠ []) :
    sepJoin sep (x :: (l1 ++ l2)) = sepJoin sep (x :: l1) ++ sep ++ sepJoin sep l2 := by
  have hsplit : x :: (l1 ++ l2) = (x :: l1) ++ l2 := rfl
  rw [hsplit, sepJoin_append sep (x :: l1) l2 (by simp) h2]

/-- C8: for every record, the flattened text export is exactly the
fixed-order concatenation the specification describes: header (id, source
name, timestamp), summary section, action items (bulleted, only if
non-empty), decisions (bulleted, only if non-empty), transcript section,
with blank-line separators. -/
theorem C8_txt_export_fixed_order (job_id : PyStr) (m : Meeting) :
    get_txt_export job_id m = txtExportClaim job_id m := by
  have e1 : ps "\n\n" = ps "\n" ++ ps "\n" := rfl
  have e2 : ps " SUMMARY " = ps " " ++ ps "SUMMARY" ++ ps " " := rfl
  have e3 : ps " ACTION ITEMS " = ps " " ++ ps "ACTION ITEMS" ++ ps " " := rfl
  have e4 : ps " DECISIONS " = ps " " ++ ps "DECISIONS" ++ ps " " := rfl
  have e5 : ps " TRANSCRIPT " = ps " " ++ ps "TRANSCRIPT" ++ ps " " := rfl
  by_cases hai : m.action_items = [] <;> by_cases hds : m.decisions = []
  · unfold get_txt_export txtExportClaim bannerLine bulletedBlock
    simp [hai, hds, e1, e2, e3, e4, e5, sepJoin, List.append_assoc]
  · obtain ⟨d, dtl, hdcons⟩ := List.exists_cons_of_ne_nil hds
    unfold get_txt_export txtExportClaim bannerLine bulletedBlock
    simp [hai, hds, hdcons, e1, e2, e3, e4, e5, sepJoin, sepJoin_append,
      sepJoin_cons_append, List.append_assoc]
  · obtain ⟨a, atl, hacons⟩ := List.exists_cons_of_ne_nil hai
    unfold get_txt_export txtExportClaim bannerLine bulletedBlock
    simp [hai, hds, hacons, e1, e2, e3, e4, e5, sepJoin, sepJoin_append,
      sepJoin_cons_append, List.append_assoc]
  · obtain ⟨a, atl, hacons⟩ := List.exists_cons_of_ne_nil hai
    obtain ⟨d, dtl, hdcons⟩ := List.exists_cons_of_ne_nil hds
    unfold get_txt_export txtExportClaim bannerLine bulletedBlock
    simp [hai, hds, hacons, hdcons, e1, e2, e3, e4, e5, sepJoin, sepJoin_append,
      sepJoin_cons_append, List.append_assoc]

/-- What one line contributes to the parser's output: its stripped item when
it is a bullet line with non-empty content, nothing otherwise. -/
def parseLine? (l : PyStr) : Option PyStr :=
  if bulletMatch l then
    (if pyStrip (subBullet l) = [] then none else some (pyStrip (subBullet l)))
  else none

/-- Prepend a prefix to the first line of a line list. -/
def consFirst (p : PyStr) : List PyStr → List PyStr
  | [] => [p]
  | l :: ls => (p ++ l) :: ls

/-- The parser's output over the lines of `t`, with `l` a pending prefix of
the first line. -/
def parseFrom (l : PyStr) (t : PyStr) : List PyStr :=
  (consFirst l (splitLines t)).filterMap parseLine?

/-- The parser's output over the raw lines of `t`. -/
def parseLines (t : PyStr) : List PyStr := (splitLines t).filterMap parseLine?

theorem splitLines_ne_nil (t : PyStr) : splitLines t ≠ [] := by
  cases t with
  | nil => simp [splitLines]
  | cons c r =>
      by_cases h : c = '\n'
      · simp [splitLines, h]
      · simp only [splitLines, h, if_false]
        cases splitLines r <;> simp [consHead]

theorem consFirst_nil_of_ne (L : List PyStr) (h : L ≠ []) : consFirst [] L = L := by
  cases L with
  | nil => cases h rfl
  | cons x xs => simp [consFirst]

theorem parseFrom_nil_param (t : PyStr) : parseFrom [] t = parseLines t := by
  unfold parseFrom parseLines
  rw [consFirst_nil_of_ne _ (splitLines_ne_nil t)]

theorem parseFrom_empty (l : PyStr) : parseFrom l [] = (parseLine? l).toList := by
  unfold parseFrom
  simp [splitLines, consFirst, List.filterMap]
  cases parseLine? l <;> simp

theorem parseFrom_newline (l : PyStr) (r : PyStr) :
    parseFrom l ('\n' :: r) = (parseLine? l).toList ++ parseFrom [] r := by
  unfold parseFrom
  have hs : splitLines ('\n' :: r) = [] :: splitLines r := by simp [splitLines]
  rw [hs]
  have hc : consFirst l ([] :: splitLines r) = l :: splitLines r := by simp [consFirst]
  rw [hc, consFirst_nil_of_ne _ (splitLines_ne_nil r)]
  cases hp : parseLine? l <;> simp [List.filterMap_cons, hp]

theorem consFirst_consHead (l : PyStr) (c : Char) (L : List PyStr) :
    consFirst l (consHead c L) = consFirst (l ++ [c]) L := by
  cases L with
  | nil => simp [consFirst, consHead]
  | cons x xs => simp [consFirst, consHead]

theorem parseFrom_cons (l : PyStr) (c : Char) (hc : ¬c = '\n') (r : PyStr) :
    parseFrom l (c :: r) = parseFrom (l ++ [c]) r := by
  unfold parseFrom
  have hs : splitLines (c :: r) = consHead c (splitLines r) := by simp [splitLines, hc]
  rw [hs, consFirst_consHead]

theorem dropWs_cons_ws (c : Char) (hc : isPyWs c = true) (x : PyStr) :
    dropWs (c :: x) = dropWs x := by
  simp [dropWs, List.dropWhile, hc]

theorem dropWs_append_nil (l : PyStr) (h : dropWs l = []) (s : PyStr) :
    dropWs (l ++ s) = dropWs s := by
  induction l with
  | nil => rfl
  | cons c l2 ih =>
      by_cases hc : isPyWs c = true
      · rw [dropWs_cons_ws c hc] at h
        rw [List.cons_append, dropWs_cons_ws c hc]
        exact ih h
      · simp only [Bool.not_eq_true] at hc
        rw [show dropWs (c :: l2) = c :: l2 by simp [dropWs, List.dropWhile, hc]] at h
        cases h

theorem dropWs_append_cons (l : PyStr) (b : Char) (m : PyStr) (h : dropWs l = b :: m)
    (s : PyStr) : dropWs (l ++ s) = b :: (m ++ s) := by
  induction l with
  | nil => cases h
  | cons c l2 ih =>
      by_cases hc : isPyWs c = true
      · rw [dropWs_cons_ws c hc] at h
        rw [List.cons_append, dropWs_cons_ws c hc]
        exact ih h
      · simp only [Bool.not_eq_true] at hc
        have heq : dropWs (c :: l2) = c :: l2 := by simp [dropWs, List.dropWhile, hc]
        rw [heq] at h
        injection h with h1 h2
        subst h1
        subst h2
        rw [List.cons_append]
        simp [dropWs, List.dropWhile, hc]

theorem stripRight_snoc_ws (c : Char) (hc : isPyWs c = true) : ∀ l : PyStr,
    stripRight (l ++ [c]) = stripRight l := by
  intro l
  induction l with
  | nil => simp [stripRight, hc]
  | cons a l2 ih =>
      show stripRight (a :: (l2 ++ [c])) = stripRight (a :: l2)
      simp only [stripRight, ih]

theorem pyStrip_snoc_ws (c : Char) (hc : isPyWs c = true) (l : PyStr) :
    pyStrip (l ++ [c]) = pyStrip l := by
  unfold pyStrip
  rw [stripRight_snoc_ws c hc]

theorem bulletMatch_ws_cons (c : Char) (hc : isPyWs c = true) (x : PyStr) :
    bulletMatch (c :: x) = bulletMatch x := by
  unfold bulletMatch
  rw [dropWs_cons_ws c hc]

theorem subBullet_ws_cons (c : Char) (hc : isPyWs c = true) (x : PyStr)
    (hb : bulletMatch x = true) : subBullet (c :: x) = subBullet x := by
  unfold bulletMatch at hb
  unfold subBullet
  rw [dropWs_cons_ws c hc]
  cases hd : dropWs x with
  | nil => rw [hd] at hb; cases hb
  | cons b m =>
      rw [hd] at hb
      simp at hb
      simp [hb]

theorem parseLine?_ws_cons (c : Char) (hc : isPyWs c = true) (x : PyStr) :
    parseLine? (c :: x) = parseLine? x := by
  by_cases hb : bulletMatch x = true
  · have hbm : bulletMatch (c :: x) = true := by rw [bulletMatch_ws_cons c hc]; exact hb
    have hsb := subBullet_ws_cons c hc x hb
    simp [parseLine?, hb, hbm, hsb]
  · simp only [Bool.not_eq_true] at hb
    have hbm : bulletMatch (c :: x) = false := by rw [bulletMatch_ws_cons c hc]; exact hb
    simp [parseLine?, hb, hbm]

theorem bulletMatch_snoc_ws (c : Char) (hc : isPyWs c = true) (l : PyStr) :
    bulletMatch (l ++ [c]) = bulletMatch l := by
  unfold bulletMatch
  cases hd : dropWs l with
  | nil =>
      rw [dropWs_append_nil l hd [c], dropWs_cons_ws c hc]
      rfl
  | cons b m => rw [dropWs_append_cons l b m hd [c]]

theorem item_snoc_ws (c : Char) (hc : isPyWs c = true) (l : PyStr)
    (hb : bulletMatch l = true) :
    pyStrip (subBullet (l ++ [c])) = pyStrip (subBullet l) := by
  unfold bulletMatch at hb
  cases hd : dropWs l with
  | nil => rw [hd] at hb; cases hb
  | cons b m =>
      have hsb1 : subBullet l = if isBullet b then dropWs m else l := by
        unfold subBullet
        rw [hd]
      have hsb2 : subBullet (l ++ [c])
          = if isBullet b then dropWs (m ++ [c]) else l ++ [c] := by
        unfold subBullet
        rw [dropWs_append_cons l b m hd [c]]
      rw [hd] at hb
      simp at hb
      rw [hsb1, hsb2, if_pos hb, if_pos hb]
      cases hdm : dropWs m with
      | nil =>
          rw [dropWs_append_nil m hdm [c], dropWs_cons_ws c hc]
          rfl
      | cons d m2 =>
          rw [dropWs_append_cons m d m2 hdm [c]]
          have hsplit : d :: (m2 ++ [c]) = (d :: m2) ++ [c] := rfl
          rw [hsplit, pyStrip_snoc_ws c hc]

theorem parseLine?_snoc_ws (c : Char) (hc : isPyWs c = true) (l : PyStr) :
    parseLine? (l ++ [c]) = parseLine? l := by
  by_cases hb : bulletMatch l = true
  · have hbm : bulletMatch (l ++ [c]) = true := by rw [bulletMatch_snoc_ws c hc]; exact hb
    have hit := item_snoc_ws c hc l hb
    simp [parseLine?, hb, hbm, hit]
  · simp only [Bool.not_eq_true] at hb
    have hbm : bulletMatch (l ++ [c]) = false := by rw [bulletMatch_snoc_ws c hc]; exact hb
    simp [parseLine?, hb, hbm]

theorem parseLine?_nil : parseLine? [] = none := rfl

theorem stripRight_cons_eq_nil (c : Char) (r : PyStr) (h : stripRight (c :: r) = []) :
    stripRight r = [] ∧ isPyWs c = true := by
  by_cases hcond : stripRight r = [] ∧ isPyWs c = true
  · exact hcond
  · exfalso
    have hne : stripRight (c :: r) = c :: stripRight r := by
      simp only [stripRight]
      rw [if_neg hcond]
    rw [hne] at h
    cases h

theorem parseFrom_allws : ∀ (r : PyStr), stripRight r = [] →
    ∀ l, parseFrom l r = (parseLine? l).toList := by
  intro r
  induction r with
  | nil => intro _ l; exact parseFrom_empty l
  | cons c r2 ih =>
      intro h l
      obtain ⟨h2, hc⟩ := stripRight_cons_eq_nil c r2 h
      by_cases hnl : c = '\n'
      · subst hnl
        rw [parseFrom_newline, ih h2 [], parseLine?_nil]
        simp
      · rw [parseFrom_cons l c hnl r2, ih h2, parseLine?_snoc_ws c hc]

theorem parseFrom_stripRight : ∀ (r : PyStr) (l : PyStr),
    parseFrom l (stripRight r) = parseFrom l r := by
  intro r
  induction r with
  | nil => intro l; rfl
  | cons c r2 ih =>
      intro l
      by_cases hcond : stripRight r2 = [] ∧ isPyWs c = true
      · have hsr : stripRight (c :: r2) = [] := by
          simp only [stripRight]
          rw [if_pos hcond]
        rw [hsr, parseFrom_empty]
        by_cases hnl : c = '\n'
        · subst hnl
          rw [parseFrom_newline, parseFrom_allws r2 hcond.1 [], parseLine?_nil]
          simp
        · rw [parseFrom_cons l c hnl r2, parseFrom_allws r2 hcond.1,
            parseLine?_snoc_ws c hcond.2]
      · have hsr : stripRight (c :: r2) = c :: stripRight r2 := by
          simp only [stripRight]
          rw [if_neg hcond]
        rw [hsr]
        by_cases hnl : c = '\n'
        · subst hnl
          rw [parseFrom_newline, parseFrom_newline, parseFrom_nil_param,
            parseFrom_nil_param, ← parseFrom_nil_param (stripRight r2),
            ← parseFrom_nil_param r2, ih []]
        · rw [parseFrom_cons l c hnl, parseFrom_cons l c hnl, ih (l ++ [c])]

theorem parseFrom_ws_param (c : Char) (hc : isPyWs c = true) : ∀ (r : PyStr) (l : PyStr),
    parseFrom (c :: l) r = parseFrom l r := by
  intro r
  induction r with
  | nil =>
      intro l
      rw [parseFrom_empty, parseFrom_empty, parseLine?_ws_cons c hc]
  | cons d r2 ih =>
      intro l
      by_cases hnl : d = '\n'
      · subst hnl
        rw [parseFrom_newline, parseFrom_newline, parseLine?_ws_cons c hc]
      · rw [parseFrom_cons (c :: l) d hnl, parseFrom_cons l d hnl]
        have hshift : (c :: l) ++ [d] = c :: (l ++ [d]) := rfl
        rw [hshift, ih (l ++ [d])]

theorem parseLines_dropWs : ∀ t : PyStr, parseLines (dropWs t) = parseLines t := by
  intro t
  induction t with
  | nil => rfl
  | cons c r ih =>
      by_cases hc : isPyWs c = true
      · rw [dropWs_cons_ws c hc, ih]
        by_cases hnl : c = '\n'
        · subst hnl
          have h1 : parseLines ('\n' :: r) = parseLines r := by
            rw [← parseFrom_nil_param, parseFrom_newline, parseLine?_nil,
              parseFrom_nil_param]
            simp
          rw [h1]
        · have h1 : parseLines (c :: r) = parseLines r := by
            rw [← parseFrom_nil_param, parseFrom_cons [] c hnl]
            have hshift : ([] : PyStr) ++ [c] = c :: [] := rfl
            rw [hshift, parseFrom_ws_param c hc r [], parseFrom_nil_param]
          rw [h1]
      · simp only [Bool.not_eq_true] at hc
        rw [show dropWs (c :: r) = c :: r by simp [dropWs, List.dropWhile, hc]]

theorem lines_pipeline : ∀ L : List PyStr,
    ((L.filter bulletMatch).map (fun line => pyStrip (subBullet line))).filter
      (fun i => decide (¬i = [])) = L.filterMap parseLine? := by
  intro L
  induction L with
  | nil => rfl
  | cons l L2 ih =>
      by_cases hb : bulletMatch l = true
      · by_cases hempty : pyStrip (subBullet l) = []
        · simpa [List.filter_cons, List.filterMap_cons, hb, hempty, parseLine?] using ih
        · simpa [List.filter_cons, List.filterMap_cons, hb, hempty, parseLine?] using ih
      · simp only [Bool.not_eq_true] at hb
        simpa [List.filter_cons, List.filterMap_cons, hb, parseLine?] using ih

theorem parse_eq_parseLines (text : PyStr) : parse text = parseLines (pyStrip text) := by
  unfold parse parseLines
  exact lines_pipeline (splitLines (pyStrip text))

theorem claimParse_eq_parseLines (text : PyStr) : claimParse text = parseLines text := by
  unfold claimParse parseLines
  exact lines_pipeline (splitLines text)

/-- C10: for every input string, BulletPointOutputParser.parse returns
exactly the input's lines that begin (after optional whitespace) with a
bullet marker, each with the marker and surrounding whitespace stripped and
each non-empty, in their original order; and an input with no
bullet-prefixed lines (such as the prompted fallback
"No action items identified.") parses to the empty list. -/
theorem C10_parse_bullet_lines (text : PyStr) :
    parse text = claimParse text ∧
    ((∀ l ∈ splitLines text, bulletMatch l = false) → parse text = []) := by
  have hmain : parse text = claimParse text := by
    rw [parse_eq_parseLines, claimParse_eq_parseLines]
    unfold pyStrip
    rw [parseLines_dropWs, ← parseFrom_nil_param, ← parseFrom_nil_param,
      parseFrom_stripRight text []]
  refine ⟨hmain, ?_⟩
  intro hall
  rw [hmain, claimParse_eq_parseLines]
  unfold parseLines
  rw [List.filterMap_eq_nil_iff]
  intro l hl
  simp [parseLine?, hall l hl]

/-- Witness for C10: the fallback sentence the extraction prompt mandates has
no bullet lines and parses to the empty list. -/
theorem C10_parse_bullet_lines_witness :
    (∀ l ∈ splitLines (ps "No action items identified."), bulletMatch l = false) ∧
    parse (ps "No action items identified.") = [] :=
  ⟨by decide, (C10_parse_bullet_lines (ps "No action items identified.")).2 (by decide)⟩
